import Mathlib

/-!
Verification of the acoustic-alarm-engine detection core.

This file gives a shallow embedding of the detection pipeline of the
acoustic alarm engine (data model, configuration resolution, spectral
peak finding, event generation, and the windowed pattern matcher) and
proves or refutes the behavioural claims about it.

Conventions of the embedding:
- Python floats are modelled as rationals; all comparisons and
  arithmetic used by the claims are order-theoretic and exact.
- The numpy FFT / Hann-window pipeline of the spectral monitor is an
  external numeric library; it is abstracted as a `spectrum` function
  parameter mapping a raw sample chunk to its magnitude spectrum.
  Everything after that point (noise floor, thresholding, peak finding,
  interpolation, ranking) is embedded from the source.
- Components whose source file is not part of the core sources here
  (the event buffer, the frequency filter, the resolution override
  fields of the profile model) are modelled from the spec; their doc
  comments say so explicitly.
-/

/-- Inclusive numeric range, from models.py (class Range). -/
structure Range where
  min : ℚ
  max : ℚ
deriving DecidableEq

/-- Membership test of Range, from models.py (Range.contains). -/
def Range.contains (r : Range) (x : ℚ) : Prop := r.min ≤ x ∧ x ≤ r.max

instance (r : Range) (x : ℚ) : Decidable (r.contains x) :=
  inferInstanceAs (Decidable (r.min ≤ x ∧ x ≤ r.max))

/-- Segment type tag, from models.py (Segment.type literal). -/
inductive SegType where
  | tone
  | silence
  | any
deriving DecidableEq

/-- One step in an alarm pattern, from models.py (class Segment). -/
structure Segment where
  type : SegType
  frequency : Option Range := none
  min_magnitude : ℚ := 1/20
  duration : Range := ⟨0, 999⟩
deriving DecidableEq

/-- Modelled from the spec: models.py in the sources has no
ResolutionConfig class although config.py imports and uses one; spec
section 3 defines it as a pair of seconds values. -/
structure ResolutionConfig where
  min_tone_duration : ℚ
  dropout_tolerance : ℚ
deriving DecidableEq

/-- Alarm pattern definition, from models.py (class AlarmProfile).
The resolution, window_duration and eval_frequency fields are missing
from the models.py in the sources but are read by config.py and
windowed_matcher.py (via getattr with a None default); they are
modelled from the spec (sections 3 and 4.5) as optional fields. -/
structure AlarmProfile where
  name : String
  segments : List Segment
  confirmation_cycles : ℕ := 1
  reset_timeout : ℚ := 10
  resolution : Option ResolutionConfig := none
  window_duration : Option ℚ := none
  eval_frequency : Option ℚ := none

/-- Spectral peak, from processing/dsp.py (class Peak). -/
structure Peak where
  frequency : ℚ
  magnitude : ℚ
  bin_index : ℕ
deriving DecidableEq

/-- Modelled from the spec: events.py is not among the sources, but
generator.py constructs ToneEvent with exactly these fields, matching
spec section 3. -/
structure ToneEvent where
  timestamp : ℚ
  duration : ℚ
  frequency : ℚ
  magnitude : ℚ
  confidence : ℚ
deriving DecidableEq

/-- Modelled from the spec: events.py is not among the sources;
windowed_matcher.py constructs PatternMatchEvent with exactly these
fields, matching spec section 3. -/
structure PatternMatchEvent where
  timestamp : ℚ
  duration : ℚ
  profile_name : String
  cycle_count : ℕ
deriving DecidableEq

/-! ### Configuration, from config.py -/

/-- Default resolution value, from config.py line 23. -/
def DEFAULT_MIN_TONE_DURATION : ℚ := 1/25

/-- Default resolution value, from config.py line 24. -/
def DEFAULT_DROPOUT_TOLERANCE : ℚ := 3/100

/-- High-resolution preset value, from config.py line 27. -/
def HIGHRES_MIN_TONE_DURATION : ℚ := 1/20

/-- High-resolution preset value, from config.py line 28. -/
def HIGHRES_DROPOUT_TOLERANCE : ℚ := 1/20

/-- Finest resolution across profiles, from config.py
(compute_finest_resolution): starts at the defaults and takes the
minimum with every per-profile override. -/
def compute_finest_resolution (profiles : List AlarmProfile) : ℚ × ℚ :=
  profiles.foldl
    (fun acc p =>
      match p.resolution with
      | some r => (min acc.1 r.min_tone_duration, min acc.2 r.dropout_tolerance)
      | none => acc)
    (DEFAULT_MIN_TONE_DURATION, DEFAULT_DROPOUT_TOLERANCE)

/-- Engine configuration record, from config.py (class EngineConfig). -/
structure EngineConfig where
  sample_rate : ℚ := 44100
  chunk_size : ℕ := 1024
  min_tone_duration : ℚ := DEFAULT_MIN_TONE_DURATION
  dropout_tolerance : ℚ := DEFAULT_DROPOUT_TOLERANCE
  min_magnitude : ℚ := 10
deriving DecidableEq

/-- Standard preset, from config.py (EngineConfig.standard). -/
def EngineConfig.standard (sample_rate : ℚ) : EngineConfig :=
  { sample_rate := sample_rate
    chunk_size := 1024
    min_tone_duration := DEFAULT_MIN_TONE_DURATION
    dropout_tolerance := DEFAULT_DROPOUT_TOLERANCE }

/-- High-resolution preset, from config.py (EngineConfig.high_resolution). -/
def EngineConfig.high_resolution (sample_rate : ℚ) : EngineConfig :=
  { sample_rate := sample_rate
    chunk_size := 1024
    min_tone_duration := HIGHRES_MIN_TONE_DURATION
    dropout_tolerance := HIGHRES_DROPOUT_TOLERANCE }

/-! ### Claims C2 and C3 -/

/-- A concrete profile whose only resolution override is coarser than
the built-in defaults. -/
def coarseProfile : AlarmProfile :=
  { name := "coarse"
    segments := [{ type := SegType.tone, frequency := some ⟨2900, 3100⟩, duration := ⟨2/5, 3/5⟩ }]
    resolution := some ⟨1/5, 1/5⟩ }

/-- C2 counterexample: for a profile set whose single profile overrides
both resolution values to 0.2 s, the minimum of the per-profile
overrides is (0.2, 0.2), but the engine computes (0.04, 0.03) because
compute_finest_resolution also takes the built-in defaults into the
minimum. -/
theorem compute_finest_resolution_counterexample :
    compute_finest_resolution [coarseProfile] ≠ ((1/5 : ℚ), (1/5 : ℚ)) := by
  have h : compute_finest_resolution [coarseProfile] = (1/25, 3/100) := by
    simp only [compute_finest_resolution, coarseProfile, List.foldl_cons, List.foldl_nil,
      DEFAULT_MIN_TONE_DURATION, DEFAULT_DROPOUT_TOLERANCE]
    rw [Prod.mk.injEq]
    constructor
    · rw [min_eq_left]
      norm_num
    · rw [min_eq_left]
      norm_num
  rw [h]
  intro hc
  rw [Prod.mk.injEq] at hc
  norm_num at hc

/-- C2 amended: the effective values are the minimum of the built-in
defaults (0.04 s and 0.03 s) together with all per-profile overrides:
each result is a lower bound of the default and of every override, and
each result is attained by the default or by some override. -/
theorem compute_finest_resolution_min_characterization (profiles : List AlarmProfile) :
    ((compute_finest_resolution profiles).1 ≤ DEFAULT_MIN_TONE_DURATION ∧
      (compute_finest_resolution profiles).2 ≤ DEFAULT_DROPOUT_TOLERANCE) ∧
    (∀ p ∈ profiles, ∀ r, p.resolution = some r →
      (compute_finest_resolution profiles).1 ≤ r.min_tone_duration ∧
      (compute_finest_resolution profiles).2 ≤ r.dropout_tolerance) ∧
    ((compute_finest_resolution profiles).1 = DEFAULT_MIN_TONE_DURATION ∨
      ∃ p ∈ profiles, ∃ r, p.resolution = some r ∧
        (compute_finest_resolution profiles).1 = r.min_tone_duration) ∧
    ((compute_finest_resolution profiles).2 = DEFAULT_DROPOUT_TOLERANCE ∨
      ∃ p ∈ profiles, ∃ r, p.resolution = some r ∧
        (compute_finest_resolution profiles).2 = r.dropout_tolerance) := by
  unfold compute_finest_resolution
  generalize hinit : (DEFAULT_MIN_TONE_DURATION, DEFAULT_DROPOUT_TOLERANCE) = init
  rw [show DEFAULT_MIN_TONE_DURATION = init.1 by rw [← hinit]]
  rw [show DEFAULT_DROPOUT_TOLERANCE = init.2 by rw [← hinit]]
  clear hinit
  induction profiles generalizing init with
  | nil =>
    refine ⟨⟨le_refl _, le_refl _⟩, ?_, Or.inl rfl, Or.inl rfl⟩
    intro p hp
    simp at hp
  | cons q qs ih =>
    simp only [List.foldl_cons]
    cases hq : q.resolution with
    | none =>
      obtain ⟨h1, h2, h3, h4⟩ := ih init
      refine ⟨h1, ?_, ?_, ?_⟩
      · intro p hp r hr
        rcases List.mem_cons.mp hp with hpq | hpm
        · subst hpq; rw [hq] at hr; cases hr
        · exact h2 p hpm r hr
      · rcases h3 with h | ⟨p, hp, r, hr, he⟩
        · exact Or.inl h
        · exact Or.inr ⟨p, List.mem_cons_of_mem _ hp, r, hr, he⟩
      · rcases h4 with h | ⟨p, hp, r, hr, he⟩
        · exact Or.inl h
        · exact Or.inr ⟨p, List.mem_cons_of_mem _ hp, r, hr, he⟩
    | some r0 =>
      obtain ⟨h1, h2, h3, h4⟩ := ih (min init.1 r0.min_tone_duration, min init.2 r0.dropout_tolerance)
      refine ⟨⟨le_trans h1.1 (min_le_left _ _), le_trans h1.2 (min_le_left _ _)⟩, ?_, ?_, ?_⟩
      · intro p hp r hr
        rcases List.mem_cons.mp hp with hpq | hpm
        · subst hpq
          rw [hq] at hr
          cases hr
          exact ⟨le_trans h1.1 (min_le_right _ _), le_trans h1.2 (min_le_right _ _)⟩
        · exact h2 p hpm r hr
      · rcases h3 with h | ⟨p, hp, r, hr, he⟩
        · rcases le_total init.1 r0.min_tone_duration with hle | hle
          · exact Or.inl (by rw [h]; exact min_eq_left hle)
          · exact Or.inr ⟨q, List.mem_cons_self _ _, r0, hq, by rw [h]; exact min_eq_right hle⟩
        · exact Or.inr ⟨p, List.mem_cons_of_mem _ hp, r, hr, he⟩
      · rcases h4 with h | ⟨p, hp, r, hr, he⟩
        · rcases le_total init.2 r0.dropout_tolerance with hle | hle
          · exact Or.inl (by rw [h]; exact min_eq_left hle)
          · exact Or.inr ⟨q, List.mem_cons_self _ _, r0, hq, by rw [h]; exact min_eq_right hle⟩
        · exact Or.inr ⟨p, List.mem_cons_of_mem _ hp, r, hr, he⟩

/-- C3 counterexample: the Standard preset built by EngineConfig.standard
does not have the values the claim states (0.10 s, 0.15 s, 4096). -/
theorem engineConfig_standard_counterexample :
    ¬ ((EngineConfig.standard 44100).min_tone_duration = 1/10 ∧
       (EngineConfig.standard 44100).dropout_tolerance = 3/20 ∧
       (EngineConfig.standard 44100).chunk_size = 4096) := by
  intro h
  have h1 := h.1
  simp only [EngineConfig.standard, DEFAULT_MIN_TONE_DURATION] at h1
  norm_num at h1

/-- C3 amended: the Standard preset has min_tone_duration = 0.04 s,
dropout_tolerance = 0.03 s and chunk_size = 1024. -/
theorem engineConfig_standard_values (sample_rate : ℚ) :
    (EngineConfig.standard sample_rate).min_tone_duration = 1/25 ∧
    (EngineConfig.standard sample_rate).dropout_tolerance = 3/100 ∧
    (EngineConfig.standard sample_rate).chunk_size = 1024 :=
  ⟨rfl, rfl, rfl⟩

/-- C3 amended witness at a concrete sample rate. -/
theorem engineConfig_standard_values_witness :
    (EngineConfig.standard 44100).min_tone_duration = 1/25 ∧
    (EngineConfig.standard 44100).dropout_tolerance = 3/100 ∧
    (EngineConfig.standard 44100).chunk_size = 1024 :=
  engineConfig_standard_values 44100

/-! ### Event generator, from generator.py -/

/-- Tracks a currently playing tone, from generator.py (class ActiveTone). -/
structure ActiveTone where
  start_time : ℚ
  frequency : ℚ
  max_magnitude : ℚ
  last_seen_time : ℚ
  samples_count : ℕ
deriving DecidableEq

/-- Immutable parameters of the event generator, from generator.py
(EventGenerator.__init__). -/
structure EGen where
  chunk_duration : ℚ
  min_tone_duration : ℚ
  dropout_tolerance : ℚ
  frequency_tolerance : ℚ
deriving DecidableEq

/-- Constructor of the generator parameters, from generator.py
(EventGenerator.__init__): chunk_duration = chunk_size / sample_rate and
the frequency tolerance is fixed at 50 Hz. -/
def EventGenerator.init (sample_rate chunk_size min_tone_duration dropout_tolerance : ℚ) : EGen :=
  ⟨chunk_size / sample_rate, min_tone_duration, dropout_tolerance, 50⟩

/-- Mutable state of the event generator, from generator.py
(active_tones and pending_output). -/
structure EGState where
  active_tones : List ActiveTone
  pending_output : List ToneEvent
deriving DecidableEq

/-- The initial generator state: no active tones, nothing pending. -/
def EGState.initial : EGState := ⟨[], []⟩

/-- Update of a matched active tone, from generator.py lines 81 to 83. -/
def updateTone (t : ActiveTone) (p : Peak) (timestamp : ℚ) : ActiveTone :=
  { t with
    max_magnitude := max t.max_magnitude p.magnitude
    last_seen_time := timestamp
    samples_count := t.samples_count + 1 }

/-- A fresh active tone for an unmatched peak, from generator.py lines 90 to 96. -/
def newTone (p : Peak) (timestamp : ℚ) : ActiveTone :=
  ⟨timestamp, p.frequency, p.magnitude, timestamp, 1⟩

/-- Replace the element at an index, identity when out of bounds. -/
def modifyAt (f : α → α) : ℕ → List α → List α
  | _, [] => []
  | 0, x :: xs => f x :: xs
  | n + 1, x :: xs => x :: modifyAt f n xs

/-- Step 1 of EventGenerator.process (generator.py lines 73 to 98): each
peak updates the first active tone within the frequency tolerance or
opens a new one; the indices touched this tick are collected. -/
def updateActive (tol timestamp : ℚ) (peaks : List Peak) (tones : List ActiveTone) :
    List ActiveTone × List ℕ :=
  peaks.foldl
    (fun acc p =>
      match acc.1.findIdx? (fun t => decide (|p.frequency - t.frequency| < tol)) with
      | some i => (modifyAt (fun t => updateTone t p timestamp) i acc.1, i :: acc.2)
      | none => (acc.1 ++ [newTone p timestamp], acc.1.length :: acc.2))
    (tones, [])

/-- The closed event produced for an ended tone, from generator.py
lines 112 to 121. -/
def closeTone (t : ActiveTone) (chunk_duration : ℚ) : ToneEvent :=
  ⟨t.start_time, (t.samples_count : ℚ) * chunk_duration, t.frequency, t.max_magnitude, 1⟩

/-- Step 2 of EventGenerator.process (generator.py lines 100 to 129):
tones not seen this tick are closed once the gap exceeds the dropout
tolerance; closed tones at least min_tone_duration long become events. -/
def sweepTones (g : EGen) (timestamp : ℚ) (matched : List ℕ) :
    List ActiveTone → ℕ → List ActiveTone × List ToneEvent
  | [], _ => ([], [])
  | t :: ts, k =>
    let rest := sweepTones g timestamp matched ts (k + 1)
    if k ∈ matched then (t :: rest.1, rest.2)
    else if g.dropout_tolerance < timestamp - t.last_seen_time then
      if g.min_tone_duration ≤ (t.samples_count : ℚ) * g.chunk_duration then
        (rest.1, closeTone t g.chunk_duration :: rest.2)
      else rest
    else (t :: rest.1, rest.2)

/-- Ordered insertion by timestamp, placing the new event after any
equal timestamps; folding it over the new events reproduces the stable
sort of pending_output in generator.py line 137. -/
def insertByTs (e : ToneEvent) : List ToneEvent → List ToneEvent
  | [] => [e]
  | x :: xs => if e.timestamp < x.timestamp then e :: x :: xs else x :: insertByTs e xs

/-- Smallest start_time among active tones, from generator.py line 152. -/
def minStart : List ActiveTone → ℚ
  | [] => 0
  | t :: ts => ts.foldl (fun a x => min a x.start_time) t.start_time

/-- Step 5 of EventGenerator.process (generator.py lines 167 to 195):
walk the release list and merge adjacent events that overlap by more
than half of the shorter duration, keeping the longer one. -/
def coalesceFrom (cur : ToneEvent) : List ToneEvent → List ToneEvent
  | [] => [cur]
  | next :: rest =>
    let overlap := max 0 (min (cur.timestamp + cur.duration) (next.timestamp + next.duration)
      - next.timestamp)
    if min cur.duration next.duration / 2 < overlap then
      coalesceFrom (if cur.duration < next.duration then next else cur) rest
    else cur :: coalesceFrom next rest

/-- Coalescing of the whole release list; for lists of length at most
one generator.py skips the walk, which returns the list unchanged, as
does the walk itself. -/
def coalesce : List ToneEvent → List ToneEvent
  | [] => []
  | e :: rest => coalesceFrom e rest

/-- One call of EventGenerator.process (generator.py lines 63 to 196):
match peaks to active tones, close dropped-out tones, buffer the closed
events sorted by start time, release the prefix that can no longer be
preceded by any future event, and coalesce the released list. -/
def EventGenerator.process (g : EGen) (s : EGState) (peaks : List Peak) (timestamp : ℚ) :
    EGState × List ToneEvent :=
  let stepped := updateActive g.frequency_tolerance timestamp peaks s.active_tones
  let swept := sweepTones g timestamp stepped.2 stepped.1 0
  let pending1 := swept.2.foldl (fun acc e => insertByTs e acc) s.pending_output
  if swept.1.isEmpty then
    (⟨swept.1, []⟩, coalesce pending1)
  else
    let m := minStart swept.1
    (⟨swept.1, pending1.dropWhile (fun e => decide (e.timestamp < m))⟩,
      coalesce (pending1.takeWhile (fun e => decide (e.timestamp < m))))

/-- A sequence of process calls from a given state, concatenating the
returned event lists. -/
def EventGenerator.runFrom (g : EGen) (s : EGState) (calls : List (List Peak × ℚ)) :
    EGState × List ToneEvent :=
  calls.foldl
    (fun acc c =>
      let r := EventGenerator.process g acc.1 c.1 c.2
      (r.1, acc.2 ++ r.2))
    (s, [])

/-- A sequence of process calls on a freshly constructed generator. -/
def EventGenerator.run (g : EGen) (calls : List (List Peak × ℚ)) : EGState × List ToneEvent :=
  EventGenerator.runFrom g EGState.initial calls

/-! ### Helper lemmas for the generator -/

theorem mem_modifyAt {α : Type} {f : α → α} {x : α} :
    ∀ {n : ℕ} {l : List α}, x ∈ modifyAt f n l → x ∈ l ∨ ∃ y ∈ l, x = f y := by
  intro n l
  induction l generalizing n with
  | nil => intro h; cases n <;> simp [modifyAt] at h
  | cons a as ih =>
    intro h
    cases n with
    | zero =>
      rcases List.mem_cons.mp h with h1 | h1
      · exact Or.inr ⟨a, List.mem_cons_self _ _, h1⟩
      · exact Or.inl (List.mem_cons_of_mem _ h1)
    | succ m =>
      rcases List.mem_cons.mp h with h1 | h1
      · exact Or.inl (h1 ▸ List.mem_cons_self _ _)
      · rcases ih h1 with h2 | ⟨y, hy, he⟩
        · exact Or.inl (List.mem_cons_of_mem _ h2)
        · exact Or.inr ⟨y, List.mem_cons_of_mem _ hy, he⟩

theorem mem_insertByTs {x e : ToneEvent} :
    ∀ {l : List ToneEvent}, x ∈ insertByTs e l ↔ x = e ∨ x ∈ l := by
  intro l
  induction l with
  | nil => simp [insertByTs]
  | cons a as ih =>
    by_cases h : e.timestamp < a.timestamp
    · simp [insertByTs, h]
    · simp only [insertByTs, if_neg h, List.mem_cons, ih]
      tauto

theorem pairwise_insertByTs {e : ToneEvent} :
    ∀ {l : List ToneEvent}, l.Pairwise (fun a b => a.timestamp ≤ b.timestamp) →
      (insertByTs e l).Pairwise (fun a b => a.timestamp ≤ b.timestamp) := by
  intro l
  induction l with
  | nil => intro _; simp [insertByTs]
  | cons a as ih =>
    intro h
    rw [List.pairwise_cons] at h
    by_cases hc : e.timestamp < a.timestamp
    · rw [insertByTs, if_pos hc]
      refine List.Pairwise.cons ?_ (List.Pairwise.cons h.1 h.2)
      intro b hb
      rcases List.mem_cons.mp hb with h1 | h1
      · exact le_of_lt (h1 ▸ hc)
      · exact le_trans (le_of_lt hc) (h.1 b h1)
    · rw [insertByTs, if_neg hc]
      refine List.Pairwise.cons ?_ (ih h.2)
      intro b hb
      rcases mem_insertByTs.mp hb with h1 | h1
      · exact h1 ▸ le_of_not_lt hc
      · exact h.1 b h1

/-- Folding insertByTs over the new events, as in generator.py line 135
to 137 (extend then stable sort of the sorted pending buffer). -/
def pendInsert (news pending : List ToneEvent) : List ToneEvent :=
  news.foldl (fun acc e => insertByTs e acc) pending

theorem mem_pendInsert {x : ToneEvent} :
    ∀ {news pending : List ToneEvent}, x ∈ pendInsert news pending ↔ x ∈ pending ∨ x ∈ news := by
  intro news
  induction news with
  | nil => simp [pendInsert]
  | cons a as ih =>
    intro pending
    simp only [pendInsert, List.foldl_cons]
    rw [show (List.foldl (fun acc e => insertByTs e acc) (insertByTs a pending) as) =
      pendInsert as (insertByTs a pending) from rfl, ih]
    simp only [mem_insertByTs, List.mem_cons]
    tauto

theorem pairwise_pendInsert :
    ∀ {news pending : List ToneEvent},
      pending.Pairwise (fun a b => a.timestamp ≤ b.timestamp) →
      (pendInsert news pending).Pairwise (fun a b => a.timestamp ≤ b.timestamp) := by
  intro news
  induction news with
  | nil => intro pending h; exact h
  | cons a as ih =>
    intro pending h
    exact ih (pairwise_insertByTs h)

theorem sweepTones_kept_mem {g : EGen} {T : ℚ} {matched : List ℕ} {t : ActiveTone} :
    ∀ {l : List ActiveTone} {k : ℕ}, t ∈ (sweepTones g T matched l k).1 → t ∈ l := by
  intro l
  induction l with
  | nil => intro k h; cases h
  | cons a as ih =>
    intro k h
    rw [sweepTones] at h
    by_cases h1 : k ∈ matched
    · rw [if_pos h1] at h
      rcases List.mem_cons.mp h with h2 | h2
      · exact h2 ▸ List.mem_cons_self _ _
      · exact List.mem_cons_of_mem _ (ih h2)
    · rw [if_neg h1] at h
      by_cases h2 : g.dropout_tolerance < T - a.last_seen_time
      · rw [if_pos h2] at h
        by_cases h3 : g.min_tone_duration ≤ (a.samples_count : ℚ) * g.chunk_duration
        · rw [if_pos h3] at h
          exact List.mem_cons_of_mem _ (ih h)
        · rw [if_neg h3] at h
          exact List.mem_cons_of_mem _ (ih h)
      · rw [if_neg h2] at h
        rcases List.mem_cons.mp h with h3 | h3
        · exact h3 ▸ List.mem_cons_self _ _
        · exact List.mem_cons_of_mem _ (ih h3)

theorem sweepTones_events {g : EGen} {T : ℚ} {matched : List ℕ} {e : ToneEvent} :
    ∀ {l : List ActiveTone} {k : ℕ}, e ∈ (sweepTones g T matched l k).2 →
      ∃ t ∈ l, e = closeTone t g.chunk_duration := by
  intro l
  induction l with
  | nil => intro k h; cases h
  | cons a as ih =>
    intro k h
    rw [sweepTones] at h
    by_cases h1 : k ∈ matched
    · rw [if_pos h1] at h
      obtain ⟨t, ht, he⟩ := ih h
      exact ⟨t, List.mem_cons_of_mem _ ht, he⟩
    · rw [if_neg h1] at h
      by_cases h2 : g.dropout_tolerance < T - a.last_seen_time
      · rw [if_pos h2] at h
        by_cases h3 : g.min_tone_duration ≤ (a.samples_count : ℚ) * g.chunk_duration
        · rw [if_pos h3] at h
          rcases List.mem_cons.mp h with h4 | h4
          · exact ⟨a, List.mem_cons_self _ _, h4⟩
          · obtain ⟨t, ht, he⟩ := ih h4
            exact ⟨t, List.mem_cons_of_mem _ ht, he⟩
        · rw [if_neg h3] at h
          obtain ⟨t, ht, he⟩ := ih h
          exact ⟨t, List.mem_cons_of_mem _ ht, he⟩
      · rw [if_neg h2] at h
        obtain ⟨t, ht, he⟩ := ih h
        exact ⟨t, List.mem_cons_of_mem _ ht, he⟩

theorem updateActive_pred (tol T : ℚ) (P : ActiveTone → Prop)
    (hup : ∀ t p, P t → P (updateTone t p T))
    (hnew : ∀ p, P (newTone p T)) :
    ∀ (peaks : List Peak) (acc : List ActiveTone × List ℕ), (∀ t ∈ acc.1, P t) →
      ∀ t ∈ (peaks.foldl
        (fun acc p =>
          match acc.1.findIdx? (fun t => decide (|p.frequency - t.frequency| < tol)) with
          | some i => (modifyAt (fun t => updateTone t p T) i acc.1, i :: acc.2)
          | none => (acc.1 ++ [newTone p T], acc.1.length :: acc.2))
        acc).1, P t := by
  intro peaks
  induction peaks with
  | nil => intro acc hacc t ht; exact hacc t ht
  | cons p ps ih =>
    intro acc hacc t ht
    rw [List.foldl_cons] at ht
    refine ih _ ?_ t ht
    intro u hu
    cases hf : acc.1.findIdx? (fun t => decide (|p.frequency - t.frequency| < tol)) with
    | some i =>
      simp only [hf] at hu
      rcases mem_modifyAt hu with h1 | ⟨y, hy, he⟩
      · exact hacc u h1
      · exact he ▸ hup y p (hacc y hy)
    | none =>
      simp only [hf] at hu
      rcases List.mem_append.mp hu with h1 | h1
      · exact hacc u h1
      · rcases List.mem_singleton.mp h1 with h2
        exact h2 ▸ hnew p

theorem updateActive_pred_apply {tol T : ℚ} {P : ActiveTone → Prop}
    (hup : ∀ t p, P t → P (updateTone t p T))
    (hnew : ∀ p, P (newTone p T))
    {peaks : List Peak} {tones : List ActiveTone} (htones : ∀ t ∈ tones, P t) :
    ∀ t ∈ (updateActive tol T peaks tones).1, P t :=
  updateActive_pred tol T P hup hnew peaks (tones, []) htones

theorem coalesceFrom_sublist :
    ∀ (l : List ToneEvent) (cur : ToneEvent), List.Sublist (coalesceFrom cur l) (cur :: l) := by
  intro l
  induction l with
  | nil => intro cur; exact List.Sublist.refl _
  | cons next rest ih =>
    intro cur
    rw [coalesceFrom]
    by_cases h : min cur.duration next.duration / 2 <
        max 0 (min (cur.timestamp + cur.duration) (next.timestamp + next.duration) - next.timestamp)
    · rw [if_pos h]
      by_cases h2 : cur.duration < next.duration
      · rw [if_pos h2]
        exact ((ih next).cons cur)
      · rw [if_neg h2]
        exact (ih cur).trans ((List.sublist_cons_self next rest).cons₂ cur)
    · rw [if_neg h]
      exact (ih next).cons₂ cur

theorem coalesce_sublist : ∀ (l : List ToneEvent), List.Sublist (coalesce l) l := by
  intro l
  cases l with
  | nil => exact List.Sublist.refl _
  | cons e rest => exact coalesceFrom_sublist rest e

theorem foldlMinStart_le (l : List ActiveTone) :
    ∀ (a : ℚ), l.foldl (fun b x => min b x.start_time) a ≤ a ∧
      ∀ t ∈ l, l.foldl (fun b x => min b x.start_time) a ≤ t.start_time := by
  induction l with
  | nil => intro a; exact ⟨le_refl _, by intro t ht; cases ht⟩
  | cons x xs ih =>
    intro a
    rw [List.foldl_cons]
    obtain ⟨h1, h2⟩ := ih (min a x.start_time)
    refine ⟨le_trans h1 (min_le_left _ _), ?_⟩
    intro t ht
    rcases List.mem_cons.mp ht with h3 | h3
    · subst h3
      exact le_trans h1 (min_le_right _ _)
    · exact h2 t h3

theorem minStart_le {l : List ActiveTone} {t : ActiveTone} (h : t ∈ l) :
    minStart l ≤ t.start_time := by
  cases l with
  | nil => cases h
  | cons x xs =>
    rw [minStart]
    rcases List.mem_cons.mp h with h1 | h1
    · exact h1 ▸ (foldlMinStart_le xs x.start_time).1
    · exact (foldlMinStart_le xs x.start_time).2 t h1

theorem mem_takeWhile_ts {m : ℚ} {e : ToneEvent} {l : List ToneEvent}
    (h : e ∈ l.takeWhile (fun x => decide (x.timestamp < m))) : e.timestamp < m := by
  have := List.mem_takeWhile_imp h
  exact of_decide_eq_true this

theorem mem_dropWhile_sorted_ts {m : ℚ} :
    ∀ {l : List ToneEvent}, l.Pairwise (fun a b => a.timestamp ≤ b.timestamp) →
      ∀ {e : ToneEvent}, e ∈ l.dropWhile (fun x => decide (x.timestamp < m)) → m ≤ e.timestamp := by
  intro l
  induction l with
  | nil => intro _ e h; cases h
  | cons x xs ih =>
    intro hp e he
    rw [List.pairwise_cons] at hp
    by_cases hx : x.timestamp < m
    · rw [List.dropWhile_cons_of_pos (by simpa using hx)] at he
      exact ih hp.2 he
    · rw [List.dropWhile_cons_of_neg (by simpa using hx)] at he
      rcases List.mem_cons.mp he with h1 | h1
      · exact h1 ▸ le_of_not_lt hx
      · exact le_trans (le_of_not_lt hx) (hp.1 e h1)

/-- Invariant carried across EventGenerator.process calls: the emitted
stream and the pending buffer are sorted and bounded by every pending
event, every active-tone start and the current time. -/
structure GenInv (s : EGState) (out : List ToneEvent) (T : ℚ) : Prop where
  out_sorted : out.Pairwise (fun a b => a.timestamp ≤ b.timestamp)
  pend_sorted : s.pending_output.Pairwise (fun a b => a.timestamp ≤ b.timestamp)
  out_pend : ∀ e ∈ out, ∀ p ∈ s.pending_output, e.timestamp ≤ p.timestamp
  out_act : ∀ e ∈ out, ∀ t ∈ s.active_tones, e.timestamp ≤ t.start_time
  out_time : ∀ e ∈ out, e.timestamp ≤ T
  pend_time : ∀ p ∈ s.pending_output, p.timestamp ≤ T
  act_time : ∀ t ∈ s.active_tones, t.start_time ≤ T

theorem genInv_initial (T : ℚ) : GenInv EGState.initial [] T := by
  refine ⟨List.Pairwise.nil, List.Pairwise.nil, ?_, ?_, ?_, ?_, ?_⟩ <;>
    · intro e he
      cases he

theorem process_inv (g : EGen) {s : EGState} {out : List ToneEvent} {T : ℚ} (inv : GenInv s out T)
    {T2 : ℚ} (hT : T ≤ T2) (peaks : List Peak) :
    GenInv (EventGenerator.process g s peaks T2).1
      (out ++ (EventGenerator.process g s peaks T2).2) T2 := by
  have hP : ∀ t ∈ (updateActive g.frequency_tolerance T2 peaks s.active_tones).1,
      t.start_time ≤ T2 ∧ ∀ e ∈ out, e.timestamp ≤ t.start_time := by
    refine updateActive_pred_apply ?_ ?_ ?_
    · intro t p ht
      exact ht
    · intro p
      refine ⟨le_refl T2, ?_⟩
      intro e he
      exact le_trans (inv.out_time e he) hT
    · intro t ht
      refine ⟨le_trans (inv.act_time t ht) hT, ?_⟩
      intro e he
      exact inv.out_act e he t ht
  set u := updateActive g.frequency_tolerance T2 peaks s.active_tones with hu
  set w := sweepTones g T2 u.2 u.1 0 with hw
  set pending1 := pendInsert w.2 s.pending_output with hp1def
  have hkept : ∀ t ∈ w.1, t ∈ u.1 := fun t ht => sweepTones_kept_mem ht
  have hwev : ∀ e ∈ w.2, ∃ t ∈ u.1, e = closeTone t g.chunk_duration :=
    fun e he => sweepTones_events he
  have hp1s : pending1.Pairwise (fun a b => a.timestamp ≤ b.timestamp) :=
    pairwise_pendInsert inv.pend_sorted
  have hp1time : ∀ p ∈ pending1, p.timestamp ≤ T2 := by
    intro p hp
    rcases mem_pendInsert.mp hp with h1 | h1
    · exact le_trans (inv.pend_time p h1) hT
    · obtain ⟨t, ht, he⟩ := hwev p h1
      have : p.timestamp = t.start_time := by rw [he]; rfl
      rw [this]
      exact (hP t ht).1
  have hout_p1 : ∀ e ∈ out, ∀ p ∈ pending1, e.timestamp ≤ p.timestamp := by
    intro e he p hp
    rcases mem_pendInsert.mp hp with h1 | h1
    · exact inv.out_pend e he p h1
    · obtain ⟨t, ht, hc⟩ := hwev p h1
      have : p.timestamp = t.start_time := by rw [hc]; rfl
      rw [this]
      exact (hP t ht).2 e he
  have hproc : EventGenerator.process g s peaks T2 =
      if w.1.isEmpty then (⟨w.1, []⟩, coalesce pending1)
      else
        (⟨w.1, pending1.dropWhile (fun e => decide (e.timestamp < minStart w.1))⟩,
          coalesce (pending1.takeWhile (fun e => decide (e.timestamp < minStart w.1)))) := rfl
  rw [hproc]
  by_cases hcase : w.1.isEmpty
  · rw [if_pos hcase]
    have hnil : w.1 = [] := List.isEmpty_iff.mp hcase
    refine ⟨?_, ?_, ?_, ?_, ?_, ?_, ?_⟩
    · rw [List.pairwise_append]
      refine ⟨inv.out_sorted, hp1s.sublist (coalesce_sublist _), ?_⟩
      intro e he p hp
      exact hout_p1 e he p ((coalesce_sublist pending1).subset hp)
    · exact List.Pairwise.nil
    · intro e _ p hp
      exact absurd hp (List.not_mem_nil p)
    · intro e _ t ht
      have ht2 : t ∈ w.1 := ht
      rw [hnil] at ht2
      exact absurd ht2 (List.not_mem_nil t)
    · intro e he
      rcases List.mem_append.mp he with h1 | h1
      · exact le_trans (inv.out_time e h1) hT
      · exact hp1time e ((coalesce_sublist pending1).subset h1)
    · intro p hp
      exact absurd hp (List.not_mem_nil p)
    · intro t ht
      have ht2 : t ∈ w.1 := ht
      rw [hnil] at ht2
      exact absurd ht2 (List.not_mem_nil t)
  · rw [if_neg hcase]
    have hready : ∀ e ∈ pending1.takeWhile (fun e => decide (e.timestamp < minStart w.1)),
        e.timestamp < minStart w.1 := fun e he => mem_takeWhile_ts he
    have hdrop : ∀ p ∈ pending1.dropWhile (fun e => decide (e.timestamp < minStart w.1)),
        minStart w.1 ≤ p.timestamp := fun p hp => mem_dropWhile_sorted_ts hp1s hp
    have hcoal : List.Sublist
        (coalesce (pending1.takeWhile (fun e => decide (e.timestamp < minStart w.1)))) pending1 :=
      (coalesce_sublist _).trans (List.takeWhile_sublist _)
    refine ⟨?_, ?_, ?_, ?_, ?_, ?_, ?_⟩
    · rw [List.pairwise_append]
      refine ⟨inv.out_sorted, hp1s.sublist hcoal, ?_⟩
      intro e he p hp
      exact hout_p1 e he p (hcoal.subset hp)
    · exact hp1s.sublist (List.dropWhile_sublist _)
    · intro e he p hp
      rcases List.mem_append.mp he with h1 | h1
      · exact hout_p1 e h1 p ((List.dropWhile_sublist _).subset hp)
      · exact le_trans (le_of_lt (hready e ((coalesce_sublist _).subset h1))) (hdrop p hp)
    · intro e he t ht
      have ht2 : t ∈ w.1 := ht
      rcases List.mem_append.mp he with h1 | h1
      · exact (hP t (hkept t ht2)).2 e h1
      · exact le_trans (le_of_lt (hready e ((coalesce_sublist _).subset h1))) (minStart_le ht2)
    · intro e he
      rcases List.mem_append.mp he with h1 | h1
      · exact le_trans (inv.out_time e h1) hT
      · exact hp1time e (hcoal.subset h1)
    · intro p hp
      exact hp1time p ((List.dropWhile_sublist _).subset hp)
    · intro t ht
      have ht2 : t ∈ w.1 := ht
      exact (hP t (hkept t ht2)).1

theorem runFrom_acc (g : EGen) :
    ∀ (calls : List (List Peak × ℚ)) (s : EGState) (out0 : List ToneEvent),
      calls.foldl
        (fun acc c =>
          let r := EventGenerator.process g acc.1 c.1 c.2
          (r.1, acc.2 ++ r.2)) (s, out0) =
      ((EventGenerator.runFrom g s calls).1, out0 ++ (EventGenerator.runFrom g s calls).2) := by
  intro calls
  induction calls with
  | nil =>
    intro s out0
    simp [EventGenerator.runFrom]
  | cons c cs ih =>
    intro s out0
    rw [List.foldl_cons]
    rw [show EventGenerator.runFrom g s (c :: cs) =
      List.foldl
        (fun acc c =>
          let r := EventGenerator.process g acc.1 c.1 c.2
          (r.1, acc.2 ++ r.2)) (s, []) (c :: cs) from rfl]
    rw [List.foldl_cons]
    simp only []
    rw [ih, ih]
    simp [List.append_assoc]

theorem runFrom_cons (g : EGen) (c : List Peak × ℚ) (cs : List (List Peak × ℚ)) (s : EGState) :
    EventGenerator.runFrom g s (c :: cs) =
      ((EventGenerator.runFrom g (EventGenerator.process g s c.1 c.2).1 cs).1,
        (EventGenerator.process g s c.1 c.2).2 ++
          (EventGenerator.runFrom g (EventGenerator.process g s c.1 c.2).1 cs).2) := by
  rw [show EventGenerator.runFrom g s (c :: cs) =
    List.foldl
      (fun acc c =>
        let r := EventGenerator.process g acc.1 c.1 c.2
        (r.1, acc.2 ++ r.2)) (s, []) (c :: cs) from rfl]
  rw [List.foldl_cons]
  simp only []
  rw [runFrom_acc]
  simp

theorem runFrom_inv (g : EGen) :
    ∀ (calls : List (List Peak × ℚ)) (s : EGState) (out : List ToneEvent) (T : ℚ),
      GenInv s out T → List.Chain' (fun a b => a.2 ≤ b.2) calls →
      (∀ c ∈ calls.head?, T ≤ c.2) →
      (out ++ (EventGenerator.runFrom g s calls).2).Pairwise
        (fun a b => a.timestamp ≤ b.timestamp) := by
  intro calls
  induction calls with
  | nil =>
    intro s out T inv _ _
    simpa [EventGenerator.runFrom] using inv.out_sorted
  | cons c cs ih =>
    intro s out T inv hchain hhead
    rw [runFrom_cons]
    have hT : T ≤ c.2 := hhead c rfl
    have inv2 := process_inv g inv hT c.1
    rw [List.chain'_cons'] at hchain
    have h := ih (EventGenerator.process g s c.1 c.2).1
      (out ++ (EventGenerator.process g s c.1 c.2).2) c.2 inv2 hchain.2 hchain.1
    simpa [List.append_assoc] using h

/-- C1: for every sequence of process calls with non-decreasing chunk
timestamps, the concatenation of the returned event lists is
non-decreasing in ToneEvent.timestamp. -/
theorem eventGenerator_chronology (g : EGen) (calls : List (List Peak × ℚ))
    (hmono : List.Chain' (fun a b => a.2 ≤ b.2) calls) :
    (EventGenerator.run g calls).2.Pairwise (fun a b => a.timestamp ≤ b.timestamp) := by
  cases calls with
  | nil => exact List.Pairwise.nil
  | cons c cs =>
    have h := runFrom_inv g (c :: cs) EGState.initial [] c.2 (genInv_initial c.2) hmono ?_
    · simpa using h
    · intro x hx
      have hx2 : x = c := by
        rw [Option.mem_def] at hx
        exact (Option.some.injEq _ _ ▸ hx).symm ▸ rfl
      rw [hx2]

theorem updateActive_single_match (tol T f m2 : ℚ) (b : ℕ) (t : ActiveTone)
    (h : |f - t.frequency| < tol) :
    updateActive tol T [⟨f, m2, b⟩] [t] = ([updateTone t ⟨f, m2, b⟩ T], [0]) := by
  simp only [updateActive, List.foldl_cons, List.foldl_nil]
  have hfind : List.findIdx? (fun x : ActiveTone =>
      decide (|(⟨f, m2, b⟩ : Peak).frequency - x.frequency| < tol)) [t] = some 0 := by
    simp [List.findIdx?_cons]
    exact h
  rw [hfind]
  rfl

theorem updateActive_single_new (tol T f m2 : ℚ) (b : ℕ) :
    updateActive tol T [⟨f, m2, b⟩] [] = ([newTone ⟨f, m2, b⟩ T], [0]) := by
  simp only [updateActive, List.foldl_cons, List.foldl_nil]
  rfl

theorem updateActive_noPeaks (tol T : ℚ) (tones : List ActiveTone) :
    updateActive tol T [] tones = (tones, []) := rfl

theorem sweepTones_single_matched (g : EGen) (T : ℚ) (t : ActiveTone) :
    sweepTones g T [0] [t] 0 = ([t], []) := by
  rw [sweepTones, sweepTones]
  simp

theorem sweepTones_single_keep (g : EGen) (T : ℚ) (t : ActiveTone)
    (h : ¬ g.dropout_tolerance < T - t.last_seen_time) :
    sweepTones g T [] [t] 0 = ([t], []) := by
  rw [sweepTones, sweepTones]
  simp [h]

theorem sweepTones_single_close (g : EGen) (T : ℚ) (t : ActiveTone)
    (h : g.dropout_tolerance < T - t.last_seen_time)
    (hd : g.min_tone_duration ≤ (t.samples_count : ℚ) * g.chunk_duration) :
    sweepTones g T [] [t] 0 = ([], [closeTone t g.chunk_duration]) := by
  rw [sweepTones, sweepTones]
  simp [h, hd]

theorem process_match_single (g : EGen) (t : ActiveTone) (f m2 : ℚ) (b : ℕ) (T : ℚ)
    (h : |f - t.frequency| < g.frequency_tolerance) :
    EventGenerator.process g ⟨[t], []⟩ [⟨f, m2, b⟩] T =
      (⟨[updateTone t ⟨f, m2, b⟩ T], []⟩, []) := by
  simp only [EventGenerator.process, updateActive_single_match g.frequency_tolerance T f m2 b t h,
    sweepTones_single_matched]
  rfl

theorem process_new_single (g : EGen) (f m2 : ℚ) (b : ℕ) (T : ℚ) :
    EventGenerator.process g ⟨[], []⟩ [⟨f, m2, b⟩] T =
      (⟨[newTone ⟨f, m2, b⟩ T], []⟩, []) := by
  simp only [EventGenerator.process, updateActive_single_new g.frequency_tolerance T f m2 b,
    sweepTones_single_matched]
  rfl

theorem process_silent_keep (g : EGen) (t : ActiveTone) (T : ℚ)
    (h : ¬ g.dropout_tolerance < T - t.last_seen_time) :
    EventGenerator.process g ⟨[t], []⟩ [] T = (⟨[t], []⟩, []) := by
  simp only [EventGenerator.process, updateActive_noPeaks, sweepTones_single_keep g T t h]
  rfl

theorem process_silent_close (g : EGen) (t : ActiveTone) (T : ℚ)
    (h : g.dropout_tolerance < T - t.last_seen_time)
    (hd : g.min_tone_duration ≤ (t.samples_count : ℚ) * g.chunk_duration) :
    EventGenerator.process g ⟨[t], []⟩ [] T =
      (⟨[], []⟩, [closeTone t g.chunk_duration]) := by
  simp only [EventGenerator.process, updateActive_noPeaks, sweepTones_single_close g T t h hd]
  rfl

theorem process_idle (g : EGen) (T : ℚ) :
    EventGenerator.process g ⟨[], []⟩ [] T = (⟨[], []⟩, []) := rfl

/-- A run of identical process calls with a fixed peak list, starting at
time t0 and advancing by one chunk duration each call. -/
def burstCalls (pk : List Peak) (t0 step : ℚ) (n : ℕ) : List (List Peak × ℚ) :=
  (List.range n).map (fun j : ℕ => (pk, t0 + (j : ℚ) * step))

theorem burstCalls_succ (pk : List Peak) (t0 step : ℚ) (n : ℕ) :
    burstCalls pk t0 step (n + 1) = (pk, t0) :: burstCalls pk (t0 + step) step n := by
  unfold burstCalls
  rw [List.range_succ_eq_map, List.map_cons, List.map_map]
  rw [List.cons.injEq]
  constructor
  · simp
  · apply List.map_congr_left
    intro j _
    simp only [Function.comp_apply]
    rw [Prod.mk.injEq]
    refine ⟨rfl, ?_⟩
    push_cast
    ring

theorem runFrom_append (g : EGen) (l1 l2 : List (List Peak × ℚ)) (s : EGState) :
    EventGenerator.runFrom g s (l1 ++ l2) =
      ((EventGenerator.runFrom g (EventGenerator.runFrom g s l1).1 l2).1,
        (EventGenerator.runFrom g s l1).2 ++
          (EventGenerator.runFrom g (EventGenerator.runFrom g s l1).1 l2).2) := by
  rw [show EventGenerator.runFrom g s (l1 ++ l2) =
    List.foldl
      (fun acc c =>
        let r := EventGenerator.process g acc.1 c.1 c.2
        (r.1, acc.2 ++ r.2)) (s, []) (l1 ++ l2) from rfl]
  rw [List.foldl_append]
  rw [show List.foldl
      (fun acc c =>
        let r := EventGenerator.process g acc.1 c.1 c.2
        (r.1, acc.2 ++ r.2)) (s, []) l1 = EventGenerator.runFrom g s l1 from rfl]
  rw [show (EventGenerator.runFrom g s l1) =
    ((EventGenerator.runFrom g s l1).1, (EventGenerator.runFrom g s l1).2) from rfl]
  rw [runFrom_acc]

theorem run_burst (g : EGen) (step f m2 : ℚ) (b : ℕ) (htol : 0 < g.frequency_tolerance) :
    ∀ (k : ℕ) (s t0 ls : ℚ) (c : ℕ),
      EventGenerator.runFrom g ⟨[⟨t0, f, m2, ls, c⟩], []⟩ (burstCalls [⟨f, m2, b⟩] s step (k + 1)) =
        (⟨[⟨t0, f, m2, s + (k : ℚ) * step, c + (k + 1)⟩], []⟩, []) := by
  intro k
  induction k with
  | zero =>
    intro s t0 ls c
    rw [burstCalls_succ, runFrom_cons]
    have habs : |f - (⟨t0, f, m2, ls, c⟩ : ActiveTone).frequency| < g.frequency_tolerance := by
      simpa using htol
    rw [process_match_single g _ f m2 b s habs]
    have hupd : updateTone ⟨t0, f, m2, ls, c⟩ ⟨f, m2, b⟩ s = ⟨t0, f, m2, s, c + 1⟩ := by
      simp [updateTone]
    rw [hupd]
    rw [show burstCalls [⟨f, m2, b⟩] (s + step) step 0 = [] from rfl]
    rw [show EventGenerator.runFrom g ⟨[⟨t0, f, m2, s, c + 1⟩], []⟩ [] =
      (⟨[⟨t0, f, m2, s, c + 1⟩], []⟩, []) from rfl]
    simp
  | succ k ih =>
    intro s t0 ls c
    rw [burstCalls_succ, runFrom_cons]
    have habs : |f - (⟨t0, f, m2, ls, c⟩ : ActiveTone).frequency| < g.frequency_tolerance := by
      simpa using htol
    rw [process_match_single g _ f m2 b s habs]
    have hupd : updateTone ⟨t0, f, m2, ls, c⟩ ⟨f, m2, b⟩ s = ⟨t0, f, m2, s, c + 1⟩ := by
      simp [updateTone]
    rw [hupd, ih (s + step) t0 s (c + 1)]
    rw [Prod.mk.injEq]
    refine ⟨?_, by simp⟩
    rw [EGState.mk.injEq]
    refine ⟨?_, rfl⟩
    rw [List.cons.injEq]
    refine ⟨?_, rfl⟩
    rw [ActiveTone.mk.injEq]
    refine ⟨rfl, rfl, rfl, ?_, by omega⟩
    push_cast
    ring

theorem run_gap (g : EGen) (step : ℚ) :
    ∀ (n : ℕ) (s t0 f m2 ls : ℚ) (c : ℕ),
      (∀ j : ℕ, j < n → ¬ g.dropout_tolerance < s + (j : ℚ) * step - ls) →
      EventGenerator.runFrom g ⟨[⟨t0, f, m2, ls, c⟩], []⟩ (burstCalls [] s step n) =
        (⟨[⟨t0, f, m2, ls, c⟩], []⟩, []) := by
  intro n
  induction n with
  | zero =>
    intro s t0 f m2 ls c _
    rfl
  | succ k ih =>
    intro s t0 f m2 ls c h
    rw [burstCalls_succ, runFrom_cons]
    have h0 : ¬ g.dropout_tolerance < s - (⟨t0, f, m2, ls, c⟩ : ActiveTone).last_seen_time := by
      have := h 0 (Nat.zero_lt_succ k)
      simpa using this
    rw [process_silent_keep g _ s h0]
    rw [ih (s + step) t0 f m2 ls c ?_]
    · simp
    · intro j hj
      have := h (j + 1) (by omega)
      intro hcon
      apply this
      have heq : s + ((j : ℚ) + 1) * step = s + step + (j : ℚ) * step := by ring
      push_cast
      rw [heq]
      exact hcon

theorem run_drain (g : EGen) (step : ℚ) :
    ∀ (n : ℕ) (s : ℚ),
      EventGenerator.runFrom g ⟨[], []⟩ (burstCalls [] s step n) = (⟨[], []⟩, []) := by
  intro n
  induction n with
  | zero => intro s; rfl
  | succ k ih =>
    intro s
    rw [burstCalls_succ, runFrom_cons, process_idle, ih (s + step)]
    simp

theorem run_tail (g : EGen) (step t0 f m2 : ℚ) :
    ∀ (n : ℕ) (s ls : ℚ) (c : ℕ),
      g.min_tone_duration ≤ (c : ℚ) * g.chunk_duration →
      g.dropout_tolerance < s + (n : ℚ) * step - ls →
      EventGenerator.runFrom g ⟨[⟨t0, f, m2, ls, c⟩], []⟩ (burstCalls [] s step (n + 1)) =
        (⟨[], []⟩, [⟨t0, (c : ℚ) * g.chunk_duration, f, m2, 1⟩]) := by
  intro n
  induction n with
  | zero =>
    intro s ls c hd h
    rw [burstCalls_succ, runFrom_cons]
    have h0 : g.dropout_tolerance < s - (⟨t0, f, m2, ls, c⟩ : ActiveTone).last_seen_time := by
      simpa using h
    rw [process_silent_close g _ s h0 hd]
    rw [show burstCalls ([] : List Peak) (s + step) step 0 = [] from rfl]
    rfl
  | succ k ih =>
    intro s ls c hd h
    rw [burstCalls_succ, runFrom_cons]
    by_cases hc : g.dropout_tolerance < s - ls
    · have h0 : g.dropout_tolerance < s - (⟨t0, f, m2, ls, c⟩ : ActiveTone).last_seen_time := hc
      rw [process_silent_close g _ s h0 hd]
      rw [run_drain g step (k + 1) (s + step)]
      rfl
    · have h0 : ¬ g.dropout_tolerance < s - (⟨t0, f, m2, ls, c⟩ : ActiveTone).last_seen_time := hc
      rw [process_silent_keep g _ s h0]
      rw [ih (s + step) ls c hd ?_]
      · simp
      · have heq : s + step + (k : ℚ) * step = s + ((k : ℚ) + 1) * step := by ring
        rw [heq]
        push_cast at h
        exact h

theorem run_burst_from_empty (g : EGen) (step f m2 : ℚ) (b : ℕ)
    (htol : 0 < g.frequency_tolerance) :
    ∀ (k : ℕ) (s : ℚ),
      EventGenerator.runFrom g ⟨[], []⟩ (burstCalls [⟨f, m2, b⟩] s step (k + 1)) =
        (⟨[⟨s, f, m2, s + (k : ℚ) * step, k + 1⟩], []⟩, []) := by
  intro k s
  cases k with
  | zero =>
    rw [burstCalls_succ, runFrom_cons, process_new_single]
    rw [show newTone ⟨f, m2, b⟩ s = (⟨s, f, m2, s, 1⟩ : ActiveTone) from rfl]
    rw [show burstCalls [⟨f, m2, b⟩] (s + step) step 0 = [] from rfl]
    rw [show EventGenerator.runFrom g ⟨[⟨s, f, m2, s, 1⟩], []⟩ [] =
      (⟨[⟨s, f, m2, s, 1⟩], []⟩, []) from rfl]
    simp
  | succ j =>
    rw [burstCalls_succ, runFrom_cons, process_new_single]
    rw [show newTone ⟨f, m2, b⟩ s = (⟨s, f, m2, s, 1⟩ : ActiveTone) from rfl]
    rw [run_burst g step f m2 b htol j (s + step) s s 1]
    rw [Prod.mk.injEq]
    refine ⟨?_, by simp⟩
    rw [EGState.mk.injEq]
    refine ⟨?_, rfl⟩
    rw [List.cons.injEq]
    refine ⟨?_, rfl⟩
    rw [ActiveTone.mk.injEq]
    refine ⟨rfl, rfl, rfl, ?_, by omega⟩
    push_cast
    ring

/-- C4: a single peak stream at one fixed frequency active for K chunks,
silent for d chunks with d times the chunk duration within the dropout
tolerance, active again for K chunks and then silent long enough to
close, produces exactly one ToneEvent: its start is the timestamp of
the first burst chunk and its duration is 2K chunk durations, spanning
the samples of both bursts. -/
theorem eventGenerator_dropout_bridging
    (sr cs mtd dt Δ f m2 : ℚ) (b : ℕ) (K d gtail : ℕ)
    (hΔdef : Δ = cs / sr) (hΔ : 0 < Δ) (hK : 1 ≤ K) (hd1 : 1 ≤ d) (hgt : 1 ≤ gtail)
    (hgap : (d : ℚ) * Δ ≤ dt)
    (hdur : mtd ≤ 2 * (K : ℚ) * Δ)
    (htail : dt < (gtail : ℚ) * Δ) :
    (EventGenerator.run (EventGenerator.init sr cs mtd dt)
      (burstCalls [⟨f, m2, b⟩] Δ Δ K ++
        burstCalls [] (((K : ℚ) + 1) * Δ) Δ d ++
        burstCalls [⟨f, m2, b⟩] (((K : ℚ) + (d : ℚ) + 1) * Δ) Δ K ++
        burstCalls [] ((2 * (K : ℚ) + (d : ℚ) + 1) * Δ) Δ gtail)).2 =
      [⟨Δ, 2 * (K : ℚ) * Δ, f, m2, 1⟩] := by
  set g := EventGenerator.init sr cs mtd dt with hg
  have hcd : g.chunk_duration = Δ := by rw [hg, hΔdef]; rfl
  have htol : (0 : ℚ) < g.frequency_tolerance := by
    rw [show g.frequency_tolerance = 50 from rfl]
    norm_num
  obtain ⟨k1, rfl⟩ : ∃ k1, K = k1 + 1 := ⟨K - 1, by omega⟩
  obtain ⟨n2, rfl⟩ : ∃ n2, gtail = n2 + 1 := ⟨gtail - 1, by omega⟩
  have h1 : EventGenerator.runFrom g EGState.initial (burstCalls [⟨f, m2, b⟩] Δ Δ (k1 + 1)) =
      (⟨[⟨Δ, f, m2, Δ + (k1 : ℚ) * Δ, k1 + 1⟩], []⟩, []) :=
    run_burst_from_empty g Δ f m2 b htol k1 Δ
  have h2 : EventGenerator.runFrom g ⟨[⟨Δ, f, m2, Δ + (k1 : ℚ) * Δ, k1 + 1⟩], []⟩
      (burstCalls [] ((((k1 + 1 : ℕ) : ℚ) + 1) * Δ) Δ d) =
      (⟨[⟨Δ, f, m2, Δ + (k1 : ℚ) * Δ, k1 + 1⟩], []⟩, []) := by
    apply run_gap
    intro j hj hcon
    have heq : (((k1 + 1 : ℕ) : ℚ) + 1) * Δ + (j : ℚ) * Δ - (Δ + (k1 : ℚ) * Δ) =
        ((j : ℚ) + 1) * Δ := by
      push_cast
      ring
    rw [heq] at hcon
    have hle : ((j : ℚ) + 1) * Δ ≤ (d : ℚ) * Δ := by
      apply mul_le_mul_of_nonneg_right _ (le_of_lt hΔ)
      have : (j + 1 : ℕ) ≤ d := by omega
      calc ((j : ℚ) + 1) = ((j + 1 : ℕ) : ℚ) := by push_cast; ring
        _ ≤ ((d : ℕ) : ℚ) := by exact_mod_cast this
    have hcon2 : g.dropout_tolerance < (d : ℚ) * Δ := lt_of_lt_of_le hcon hle
    rw [show g.dropout_tolerance = dt from rfl] at hcon2
    exact absurd hgap (not_le_of_lt hcon2)
  have h3 : EventGenerator.runFrom g ⟨[⟨Δ, f, m2, Δ + (k1 : ℚ) * Δ, k1 + 1⟩], []⟩
      (burstCalls [⟨f, m2, b⟩] ((((k1 + 1 : ℕ) : ℚ) + (d : ℚ) + 1) * Δ) Δ (k1 + 1)) =
      (⟨[⟨Δ, f, m2, (((k1 + 1 : ℕ) : ℚ) + (d : ℚ) + 1) * Δ + (k1 : ℚ) * Δ,
        (k1 + 1) + (k1 + 1)⟩], []⟩, []) :=
    run_burst g Δ f m2 b htol k1 _ Δ _ (k1 + 1)
  have h4 : EventGenerator.runFrom g
      ⟨[⟨Δ, f, m2, (((k1 + 1 : ℕ) : ℚ) + (d : ℚ) + 1) * Δ + (k1 : ℚ) * Δ,
        (k1 + 1) + (k1 + 1)⟩], []⟩
      (burstCalls [] ((2 * ((k1 + 1 : ℕ) : ℚ) + (d : ℚ) + 1) * Δ) Δ (n2 + 1)) =
      (⟨[], []⟩, [⟨Δ, (((k1 + 1) + (k1 + 1) : ℕ) : ℚ) * g.chunk_duration, f, m2, 1⟩]) := by
    apply run_tail
    · rw [hcd, show g.min_tone_duration = mtd from rfl]
      calc mtd ≤ 2 * ((k1 + 1 : ℕ) : ℚ) * Δ := hdur
        _ = (((k1 + 1) + (k1 + 1) : ℕ) : ℚ) * Δ := by push_cast; ring
    · rw [show g.dropout_tolerance = dt from rfl]
      have heq : (2 * ((k1 + 1 : ℕ) : ℚ) + (d : ℚ) + 1) * Δ + (n2 : ℚ) * Δ -
          ((((k1 + 1 : ℕ) : ℚ) + (d : ℚ) + 1) * Δ + (k1 : ℚ) * Δ) =
          (((n2 + 1 : ℕ) : ℚ)) * Δ := by
        push_cast
        ring
      rw [heq]
      exact htail
  rw [show EventGenerator.run g (burstCalls [⟨f, m2, b⟩] Δ Δ (k1 + 1) ++
        burstCalls [] ((((k1 + 1 : ℕ) : ℚ) + 1) * Δ) Δ d ++
        burstCalls [⟨f, m2, b⟩] ((((k1 + 1 : ℕ) : ℚ) + (d : ℚ) + 1) * Δ) Δ (k1 + 1) ++
        burstCalls [] ((2 * ((k1 + 1 : ℕ) : ℚ) + (d : ℚ) + 1) * Δ) Δ (n2 + 1)) =
      EventGenerator.runFrom g EGState.initial (burstCalls [⟨f, m2, b⟩] Δ Δ (k1 + 1) ++
        burstCalls [] ((((k1 + 1 : ℕ) : ℚ) + 1) * Δ) Δ d ++
        burstCalls [⟨f, m2, b⟩] ((((k1 + 1 : ℕ) : ℚ) + (d : ℚ) + 1) * Δ) Δ (k1 + 1) ++
        burstCalls [] ((2 * ((k1 + 1 : ℕ) : ℚ) + (d : ℚ) + 1) * Δ) Δ (n2 + 1)) from rfl]
  simp only [runFrom_append, h1, h2, h3, h4]
  simp only [List.nil_append, List.append_nil]
  rw [List.cons.injEq]
  refine ⟨?_, rfl⟩
  rw [ToneEvent.mk.injEq]
  refine ⟨rfl, ?_, rfl, rfl, rfl⟩
  rw [hcd]
  push_cast
  ring

/-- C1 witness: the chronology theorem applied to a concrete call
sequence with non-decreasing timestamps. -/
theorem eventGenerator_chronology_witness :
    List.Chain' (fun a b : List Peak × ℚ => a.2 ≤ b.2)
      [([⟨1000, 5, 23⟩], 1), ([], 2), ([], 3)] ∧
    (EventGenerator.run (EventGenerator.init 1 1 (1/2) (1/2))
      [([⟨1000, 5, 23⟩], 1), ([], 2), ([], 3)]).2.Pairwise
      (fun a b => a.timestamp ≤ b.timestamp) := by
  have hchain : List.Chain' (fun a b : List Peak × ℚ => a.2 ≤ b.2)
      [([⟨1000, 5, 23⟩], 1), ([], 2), ([], 3)] := by
    rw [List.chain'_cons, List.chain'_cons]
    refine ⟨by norm_num, by norm_num, List.chain'_singleton _⟩
  exact ⟨hchain, eventGenerator_chronology _ _ hchain⟩

/-- C4 witness: the dropout bridging theorem at chunk duration 1 s,
two bursts of 2 chunks separated by a 1 chunk gap, dropout tolerance
1 s, minimum tone duration 4 s and a closing tail of 2 silent chunks. -/
theorem eventGenerator_dropout_bridging_witness :
    ((1 : ℚ) = 1 / 1) ∧ ((0 : ℚ) < 1) ∧ (1 ≤ 2) ∧ (1 ≤ 1) ∧
    (((1 : ℕ) : ℚ) * 1 ≤ 1) ∧ ((4 : ℚ) ≤ 2 * ((2 : ℕ) : ℚ) * 1) ∧ ((1 : ℚ) < ((2 : ℕ) : ℚ) * 1) ∧
    (EventGenerator.run (EventGenerator.init 1 1 4 1)
      (burstCalls [⟨1000, 5, 7⟩] 1 1 2 ++
        burstCalls [] ((((2 : ℕ) : ℚ) + 1) * 1) 1 1 ++
        burstCalls [⟨1000, 5, 7⟩] ((((2 : ℕ) : ℚ) + ((1 : ℕ) : ℚ) + 1) * 1) 1 2 ++
        burstCalls [] ((2 * ((2 : ℕ) : ℚ) + ((1 : ℕ) : ℚ) + 1) * 1) 1 2)).2 =
      [⟨1, 2 * ((2 : ℕ) : ℚ) * 1, 1000, 5, 1⟩] :=
  ⟨by norm_num, by norm_num, by norm_num, by norm_num, by norm_num, by norm_num, by norm_num,
    eventGenerator_dropout_bridging 1 1 4 1 1 1000 5 7 2 1 2 (by norm_num) (by norm_num)
      (by norm_num) (by norm_num) (by norm_num) (by norm_num) (by norm_num) (by norm_num)⟩

/-- C9: when the release list is a pair of adjacent events, process
returns exactly one event, the longer of the two, when they overlap by
more than half the shorter duration, and returns both otherwise.
The release list here is the pending buffer of a state with no active
tones, which process releases in full and coalesces. -/
theorem eventGenerator_coalescing_pair (g : EGen) (e1 e2 : ToneEvent) (T : ℚ)
    (hord : e1.timestamp ≤ e2.timestamp) :
    (min e1.duration e2.duration / 2 <
        max 0 (min (e1.timestamp + e1.duration) (e2.timestamp + e2.duration) - e2.timestamp) →
      (EventGenerator.process g ⟨[], [e1, e2]⟩ [] T).2 =
        [if e1.duration < e2.duration then e2 else e1] ∧
      (if e1.duration < e2.duration then e2 else e1).duration = max e1.duration e2.duration) ∧
    (¬ min e1.duration e2.duration / 2 <
        max 0 (min (e1.timestamp + e1.duration) (e2.timestamp + e2.duration) - e2.timestamp) →
      (EventGenerator.process g ⟨[], [e1, e2]⟩ [] T).2 = [e1, e2]) := by
  have hproc : (EventGenerator.process g ⟨[], [e1, e2]⟩ [] T).2 = coalesce [e1, e2] := rfl
  constructor
  · intro hov
    constructor
    · rw [hproc]
      rw [show coalesce [e1, e2] = coalesceFrom e1 [e2] from rfl]
      simp only [coalesceFrom]
      rw [if_pos hov]
    · by_cases hd : e1.duration < e2.duration
      · rw [if_pos hd, max_eq_right (le_of_lt hd)]
      · rw [if_neg hd, max_eq_left (le_of_not_lt hd)]
  · intro hov
    rw [hproc]
    rw [show coalesce [e1, e2] = coalesceFrom e1 [e2] from rfl]
    simp only [coalesceFrom]
    rw [if_neg hov]

/-- C9 witness: two overlapping events of durations 3 and 4 starting at
times 0 and 1, and the theorem instance at those inputs. -/
theorem eventGenerator_coalescing_pair_witness :
    ((⟨0, 3, 100, 1, 1⟩ : ToneEvent).timestamp ≤ (⟨1, 4, 100, 1, 1⟩ : ToneEvent).timestamp) ∧
    ((min (⟨0, 3, 100, 1, 1⟩ : ToneEvent).duration (⟨1, 4, 100, 1, 1⟩ : ToneEvent).duration / 2 <
        max 0 (min ((⟨0, 3, 100, 1, 1⟩ : ToneEvent).timestamp +
            (⟨0, 3, 100, 1, 1⟩ : ToneEvent).duration)
          ((⟨1, 4, 100, 1, 1⟩ : ToneEvent).timestamp + (⟨1, 4, 100, 1, 1⟩ : ToneEvent).duration) -
          (⟨1, 4, 100, 1, 1⟩ : ToneEvent).timestamp) →
      (EventGenerator.process (EventGenerator.init 1 1 0 0)
          ⟨[], [⟨0, 3, 100, 1, 1⟩, ⟨1, 4, 100, 1, 1⟩]⟩ [] 9).2 =
        [if (⟨0, 3, 100, 1, 1⟩ : ToneEvent).duration < (⟨1, 4, 100, 1, 1⟩ : ToneEvent).duration
          then ⟨1, 4, 100, 1, 1⟩ else ⟨0, 3, 100, 1, 1⟩] ∧
      (if (⟨0, 3, 100, 1, 1⟩ : ToneEvent).duration < (⟨1, 4, 100, 1, 1⟩ : ToneEvent).duration
          then (⟨1, 4, 100, 1, 1⟩ : ToneEvent) else ⟨0, 3, 100, 1, 1⟩).duration =
        max (⟨0, 3, 100, 1, 1⟩ : ToneEvent).duration (⟨1, 4, 100, 1, 1⟩ : ToneEvent).duration) ∧
    (¬ min (⟨0, 3, 100, 1, 1⟩ : ToneEvent).duration (⟨1, 4, 100, 1, 1⟩ : ToneEvent).duration / 2 <
        max 0 (min ((⟨0, 3, 100, 1, 1⟩ : ToneEvent).timestamp +
            (⟨0, 3, 100, 1, 1⟩ : ToneEvent).duration)
          ((⟨1, 4, 100, 1, 1⟩ : ToneEvent).timestamp + (⟨1, 4, 100, 1, 1⟩ : ToneEvent).duration) -
          (⟨1, 4, 100, 1, 1⟩ : ToneEvent).timestamp) →
      (EventGenerator.process (EventGenerator.init 1 1 0 0)
          ⟨[], [⟨0, 3, 100, 1, 1⟩, ⟨1, 4, 100, 1, 1⟩]⟩ [] 9).2 =
        [⟨0, 3, 100, 1, 1⟩, ⟨1, 4, 100, 1, 1⟩])) :=
  ⟨by norm_num,
    eventGenerator_coalescing_pair (EventGenerator.init 1 1 0 0)
      ⟨0, 3, 100, 1, 1⟩ ⟨1, 4, 100, 1, 1⟩ 9 (by norm_num)⟩

/-! ### Spectral monitor, from processing/dsp.py -/

/-- Parameters of the spectral monitor, from processing/dsp.py
(SpectralMonitor.__init__); min_sharpness is fixed at 1.5. -/
structure SpectralMonitor where
  sample_rate : ℚ
  chunk_size : ℕ
  min_magnitude : ℚ
  min_sharpness : ℚ
deriving DecidableEq

/-- SpectralMonitor constructor, from processing/dsp.py lines 28 to 43. -/
def SpectralMonitor.init (sample_rate : ℚ) (chunk_size : ℕ) (min_magnitude : ℚ) :
    SpectralMonitor :=
  ⟨sample_rate, chunk_size, min_magnitude, 3/2⟩

/-- Ordered insertion for ascending rational sort (used for the median
of the magnitude spectrum, np.median in processing/dsp.py line 71). -/
def insertAsc (x : ℚ) : List ℚ → List ℚ
  | [] => [x]
  | y :: ys => if x < y then x :: y :: ys else y :: insertAsc x ys

/-- Ascending sort of the spectrum values. -/
def sortAsc (l : List ℚ) : List ℚ := l.foldl (fun acc x => insertAsc x acc) []

/-- Median of a list of rationals: middle element of the sorted list,
or the mean of the two middle elements for even length, matching
np.median (processing/dsp.py line 71). -/
def medianQ (l : List ℚ) : ℚ :=
  let sorted := sortAsc l
  let n := l.length
  if n % 2 = 1 then sorted.getD (n / 2) 0
  else (sorted.getD (n / 2 - 1) 0 + sorted.getD (n / 2) 0) / 2

/-- Maximum of the spectrum, np.max over a non-empty list
(processing/dsp.py line 76). -/
def maxQ : List ℚ → ℚ
  | [] => 0
  | x :: xs => xs.foldl max x

/-- The candidate peak at bin i, from processing/dsp.py lines 84 to 116:
threshold, local maximum, sharpness against the four neighbours, and
parabolic interpolation of the true bin. -/
def peakAt (m : SpectralMonitor) (S : List ℚ) (thr : ℚ) (i : ℕ) : Option Peak :=
  let mag := S.getD i 0
  if mag < thr then none
  else if S.getD (i - 1) 0 < mag ∧ S.getD (i + 1) 0 < mag then
    let neighbors0 := (S.getD (i - 2) 0 + S.getD (i - 1) 0 + S.getD (i + 1) 0 +
      S.getD (i + 2) 0) / 4
    let neighbors := if neighbors0 = 0 then 1 / 1000000 else neighbors0
    if m.min_sharpness < mag / neighbors then
      let alpha := S.getD (i - 1) 0
      let gamma := S.getD (i + 1) 0
      let denom := alpha - 2 * mag + gamma
      let delta := if denom = 0 then 0 else (alpha - gamma) / (2 * denom)
      some ⟨((i : ℚ) + delta) * (m.sample_rate / (m.chunk_size : ℚ)), mag, i⟩
    else none
  else none

/-- All candidate peaks over bins 2 to len(S) - 3, from
processing/dsp.py line 84. -/
def collectPeaks (m : SpectralMonitor) (S : List ℚ) (thr : ℚ) : List Peak :=
  (List.range' 2 (S.length - 4)).filterMap (peakAt m S thr)

/-- Ordered insertion for the stable descending sort by magnitude of
peaks (processing/dsp.py line 119). -/
def insertDesc (p : Peak) : List Peak → List Peak
  | [] => [p]
  | q :: qs => if q.magnitude < p.magnitude then p :: q :: qs else q :: insertDesc p qs

/-- Stable descending sort by magnitude. -/
def sortPeaksDesc (l : List Peak) : List Peak := l.foldl (fun acc p => insertDesc p acc) []

/-- SpectralMonitor.process, from processing/dsp.py lines 45 to 120.
The normalization, Hann window and FFT magnitude computation (numpy)
are abstracted as the spectrum parameter; everything after it is
embedded: empty on a length mismatch, adaptive threshold
max(min_magnitude, 3 x median), empty when the maximum is below the
threshold, peak finding, descending sort, truncation to 5. -/
def SpectralMonitor.process (m : SpectralMonitor) (spectrum : List ℤ → List ℚ)
    (chunk : List ℤ) : List Peak :=
  if chunk.length ≠ m.chunk_size then []
  else
    let S := spectrum chunk
    if S.length = 0 then []
    else
      let thr := max m.min_magnitude (medianQ S * 3)
      if maxQ S < thr then []
      else (sortPeaksDesc (collectPeaks m S thr)).take 5

theorem mem_insertDesc {x p : Peak} :
    ∀ {l : List Peak}, x ∈ insertDesc p l ↔ x = p ∨ x ∈ l := by
  intro l
  induction l with
  | nil => simp [insertDesc]
  | cons q qs ih =>
    by_cases h : q.magnitude < p.magnitude
    · simp [insertDesc, h]
    · simp only [insertDesc, if_neg h, List.mem_cons, ih]
      tauto

theorem pairwise_insertDesc {p : Peak} :
    ∀ {l : List Peak}, l.Pairwise (fun a b => b.magnitude ≤ a.magnitude) →
      (insertDesc p l).Pairwise (fun a b => b.magnitude ≤ a.magnitude) := by
  intro l
  induction l with
  | nil => intro _; simp [insertDesc]
  | cons q qs ih =>
    intro h
    rw [List.pairwise_cons] at h
    by_cases hc : q.magnitude < p.magnitude
    · rw [insertDesc, if_pos hc]
      refine List.Pairwise.cons ?_ (List.Pairwise.cons h.1 h.2)
      intro b hb
      rcases List.mem_cons.mp hb with h1 | h1
      · exact h1 ▸ le_of_lt hc
      · exact le_trans (h.1 b h1) (le_of_lt hc)
    · rw [insertDesc, if_neg hc]
      refine List.Pairwise.cons ?_ (ih h.2)
      intro b hb
      rcases mem_insertDesc.mp hb with h1 | h1
      · exact h1 ▸ le_of_not_lt hc
      · exact h.1 b h1

theorem mem_sortPeaksDesc_aux {x : Peak} :
    ∀ {l acc : List Peak},
      x ∈ l.foldl (fun acc p => insertDesc p acc) acc ↔ x ∈ acc ∨ x ∈ l := by
  intro l
  induction l with
  | nil => simp
  | cons p ps ih =>
    intro acc
    rw [List.foldl_cons, ih]
    simp only [mem_insertDesc, List.mem_cons]
    tauto

theorem pairwise_sortPeaksDesc_aux :
    ∀ {l acc : List Peak}, acc.Pairwise (fun a b => b.magnitude ≤ a.magnitude) →
      (l.foldl (fun acc p => insertDesc p acc) acc).Pairwise
        (fun a b => b.magnitude ≤ a.magnitude) := by
  intro l
  induction l with
  | nil => intro acc h; exact h
  | cons p ps ih =>
    intro acc h
    rw [List.foldl_cons]
    exact ih (pairwise_insertDesc h)

theorem peakAt_some_magnitude {m : SpectralMonitor} {S : List ℚ} {thr : ℚ} {i : ℕ} {p : Peak}
    (h : peakAt m S thr i = some p) : thr ≤ p.magnitude := by
  unfold peakAt at h
  by_cases h1 : S.getD i 0 < thr
  · rw [if_pos h1] at h
    cases h
  · rw [if_neg h1] at h
    by_cases h2 : S.getD (i - 1) 0 < S.getD i 0 ∧ S.getD (i + 1) 0 < S.getD i 0
    · rw [if_pos h2] at h
      simp only [] at h
      by_cases h3 : m.min_sharpness <
          S.getD i 0 / (if (S.getD (i - 2) 0 + S.getD (i - 1) 0 + S.getD (i + 1) 0 +
            S.getD (i + 2) 0) / 4 = 0 then 1 / 1000000
            else (S.getD (i - 2) 0 + S.getD (i - 1) 0 + S.getD (i + 1) 0 + S.getD (i + 2) 0) / 4)
      · rw [if_pos h3] at h
        have hp : p.magnitude = S.getD i 0 := by
          cases h
          rfl
        rw [hp]
        exact le_of_not_lt h1
      · rw [if_neg h3] at h
        cases h
    · rw [if_neg h2] at h
      cases h

theorem spectralMonitor_process_eq (m : SpectralMonitor) (spectrum : List ℤ → List ℚ)
    (chunk : List ℤ) (hlen : chunk.length = m.chunk_size) :
    m.process spectrum chunk =
      if (spectrum chunk).length = 0 then []
      else if maxQ (spectrum chunk) < max m.min_magnitude (medianQ (spectrum chunk) * 3) then []
      else (sortPeaksDesc (collectPeaks m (spectrum chunk)
        (max m.min_magnitude (medianQ (spectrum chunk) * 3)))).take 5 := by
  unfold SpectralMonitor.process
  rw [if_neg (by rw [hlen]; exact fun hcon => hcon rfl)]

/-- C7: for every chunk of exactly chunk_size samples (and every
magnitude spectrum the numpy pipeline may produce for it), process
returns at most 5 peaks, sorted by magnitude descending, every returned
peak has magnitude at least max(min_magnitude, 3 x median of the
spectrum), and the result is empty whenever the maximum of the spectrum
is below that threshold. -/
theorem spectralMonitor_process_contract (m : SpectralMonitor) (spectrum : List ℤ → List ℚ)
    (chunk : List ℤ) (hlen : chunk.length = m.chunk_size) :
    (m.process spectrum chunk).length ≤ 5 ∧
    (m.process spectrum chunk).Pairwise (fun a b => b.magnitude ≤ a.magnitude) ∧
    (∀ p ∈ m.process spectrum chunk,
      max m.min_magnitude (medianQ (spectrum chunk) * 3) ≤ p.magnitude) ∧
    (maxQ (spectrum chunk) < max m.min_magnitude (medianQ (spectrum chunk) * 3) →
      m.process spectrum chunk = []) := by
  rw [spectralMonitor_process_eq m spectrum chunk hlen]
  by_cases hS : (spectrum chunk).length = 0
  · rw [if_pos hS]
    refine ⟨by simp, List.Pairwise.nil, ?_, fun _ => rfl⟩
    intro p hp
    cases hp
  · rw [if_neg hS]
    by_cases hmax : maxQ (spectrum chunk) < max m.min_magnitude (medianQ (spectrum chunk) * 3)
    · rw [if_pos hmax]
      refine ⟨by simp, List.Pairwise.nil, ?_, fun _ => rfl⟩
      intro p hp
      cases hp
    · rw [if_neg hmax]
      refine ⟨List.length_take_le 5 _, ?_, ?_, ?_⟩
      · exact (pairwise_sortPeaksDesc_aux List.Pairwise.nil).sublist (List.take_sublist 5 _)
      · intro p hp
        have hp2 : p ∈ sortPeaksDesc (collectPeaks m (spectrum chunk)
            (max m.min_magnitude (medianQ (spectrum chunk) * 3))) :=
          (List.take_sublist 5 _).subset hp
        have hp3 : p ∈ collectPeaks m (spectrum chunk)
            (max m.min_magnitude (medianQ (spectrum chunk) * 3)) := by
          rcases mem_sortPeaksDesc_aux.mp hp2 with h1 | h1
          · cases h1
          · exact h1
        obtain ⟨i, _, hi⟩ := List.mem_filterMap.mp hp3
        exact peakAt_some_magnitude hi
      · intro hcon
        exact absurd hcon hmax

/-- C7 witness: the contract at a concrete monitor, spectrum function
and correctly sized chunk. -/
theorem spectralMonitor_process_contract_witness :
    ((List.replicate 4 (0 : ℤ)).length = (SpectralMonitor.init 8 4 (1/20)).chunk_size) ∧
    ((SpectralMonitor.init 8 4 (1/20)).process (fun _ => [0, 9, 0])
        (List.replicate 4 (0 : ℤ))).length ≤ 5 ∧
    ((SpectralMonitor.init 8 4 (1/20)).process (fun _ => [0, 9, 0])
        (List.replicate 4 (0 : ℤ))).Pairwise (fun a b => b.magnitude ≤ a.magnitude) ∧
    (∀ p ∈ (SpectralMonitor.init 8 4 (1/20)).process (fun _ => [0, 9, 0])
        (List.replicate 4 (0 : ℤ)),
      max (SpectralMonitor.init 8 4 (1/20)).min_magnitude
        (medianQ ((fun _ : List ℤ => [(0 : ℚ), 9, 0]) (List.replicate 4 (0 : ℤ))) * 3) ≤
        p.magnitude) ∧
    (maxQ ((fun _ : List ℤ => [(0 : ℚ), 9, 0]) (List.replicate 4 (0 : ℤ))) <
        max (SpectralMonitor.init 8 4 (1/20)).min_magnitude
          (medianQ ((fun _ : List ℤ => [(0 : ℚ), 9, 0]) (List.replicate 4 (0 : ℤ))) * 3) →
      (SpectralMonitor.init 8 4 (1/20)).process (fun _ => [0, 9, 0])
        (List.replicate 4 (0 : ℤ)) = []) :=
  ⟨by simp [SpectralMonitor.init],
    (spectralMonitor_process_contract (SpectralMonitor.init 8 4 (1/20)) (fun _ => [0, 9, 0])
      (List.replicate 4 (0 : ℤ)) (by simp [SpectralMonitor.init])).1,
    (spectralMonitor_process_contract (SpectralMonitor.init 8 4 (1/20)) (fun _ => [0, 9, 0])
      (List.replicate 4 (0 : ℤ)) (by simp [SpectralMonitor.init])).2.1,
    (spectralMonitor_process_contract (SpectralMonitor.init 8 4 (1/20)) (fun _ => [0, 9, 0])
      (List.replicate 4 (0 : ℤ)) (by simp [SpectralMonitor.init])).2.2.1,
    (spectralMonitor_process_contract (SpectralMonitor.init 8 4 (1/20)) (fun _ => [0, 9, 0])
      (List.replicate 4 (0 : ℤ)) (by simp [SpectralMonitor.init])).2.2.2⟩

/-! ### Windowed matcher, from windowed_matcher.py -/

/-- Per-profile window configuration, from windowed_matcher.py
(class WindowConfig). -/
structure WindowConfig where
  window_duration : ℚ
  eval_frequency : ℚ
  pattern_duration : ℚ
deriving DecidableEq

/-- Window configuration of a profile, from windowed_matcher.py
(WindowedMatcher._compute_config): pattern duration is the sum of the
segment duration midpoints; window and eval frequency are the profile
overrides when present, else pattern x cycles x 1.5 and
min(0.5, pattern / 4). -/
def computeConfig (p : AlarmProfile) : WindowConfig :=
  let pd := p.segments.foldl (fun a s => a + (s.duration.min + s.duration.max) / 2) 0
  ⟨p.window_duration.getD (pd * (p.confirmation_cycles : ℚ) * (3/2)),
    p.eval_frequency.getD (min (1/2) (pd / 4)),
    pd⟩

/-- Modelled from the spec: event_buffer.py is not among the sources;
spec section 4.4 defines get_window(end_time, duration) as all buffered
events with timestamp in (end_time - duration, end_time], in
chronological order. -/
def EventBuffer.getWindow (buf : List ToneEvent) (endTime dur : ℚ) : List ToneEvent :=
  buf.filter (fun e => decide (endTime - dur < e.timestamp ∧ e.timestamp ≤ endTime))

/-- Modelled from the spec: event_buffer.py is not among the sources;
spec section 4.4 defines add as insertion pruning entries with
timestamp below now minus the retention window. -/
def EventBuffer.add (retention : ℚ) (buf : List ToneEvent) (e : ToneEvent) : List ToneEvent :=
  (buf ++ [e]).filter (fun x => decide (e.timestamp - retention ≤ x.timestamp))

/-- Frequency check of one tone segment in the cycle counter, from
windowed_matcher.py line 267. -/
def freqOk (seg : Segment) (e : ToneEvent) : Bool :=
  match seg.frequency with
  | some r => decide (r.contains e.frequency)
  | none => false

/-- Duration check of one tone segment in the cycle counter, from
windowed_matcher.py lines 272 to 278: exact containment, or the relaxed
interval from half the minimum to one and a half times the maximum. -/
def durOk (seg : Segment) (e : ToneEvent) : Bool :=
  decide (seg.duration.contains e.duration) ||
    (decide (seg.duration.min * (1/2) ≤ e.duration) &&
      decide (e.duration ≤ seg.duration.max * (3/2)))

/-- Silence-gap check of one tone segment in the cycle counter, from
windowed_matcher.py lines 281 to 295: only checked when the segment is
not the last tone of the cycle, a next event exists and a matching
silence segment exists; the gap must lie between half the silence
minimum and twice the silence maximum. -/
def gapOk (silences : List Segment) (numTones : ℕ) (events : List ToneEvent)
    (j i : ℕ) (e : ToneEvent) : Bool :=
  if j + 1 < numTones ∧ i + 1 < events.length then
    match silences[j]?, events[i + 1]? with
    | some sseg, some nxt =>
      decide (sseg.duration.min * (1/2) ≤ nxt.timestamp - (e.timestamp + e.duration) ∧
        nxt.timestamp - (e.timestamp + e.duration) ≤ sseg.duration.max * 2)
    | _, _ => true
  else true

/-- One attempted pattern cycle of the counter, from windowed_matcher.py
lines 256 to 297: consume one event per tone segment, checking
frequency, duration and the inter-event gap; returns the next cursor on
success. -/
def tryCycleAux (silences : List Segment) (numTones : ℕ) (events : List ToneEvent) :
    List Segment → ℕ → ℕ → Option ℕ
  | [], _, i => some i
  | seg :: rest, j, i =>
    match events[i]? with
    | none => none
    | some e =>
      if freqOk seg e && durOk seg e && gapOk silences numTones events j i e then
        tryCycleAux silences numTones events rest (j + 1) (i + 1)
      else none

/-- One attempted cycle over all tone segments. -/
def tryCycle (tones silences : List Segment) (events : List ToneEvent) (i : ℕ) : Option ℕ :=
  tryCycleAux silences tones.length events tones 0 i

theorem tryCycleAux_some {silences : List Segment} {numTones : ℕ} {events : List ToneEvent} :
    ∀ {segs : List Segment} {j i i2 : ℕ},
      tryCycleAux silences numTones events segs j i = some i2 → i2 = i + segs.length := by
  intro segs
  induction segs with
  | nil =>
    intro j i i2 h
    rw [tryCycleAux] at h
    cases h
    simp
  | cons seg rest ih =>
    intro j i i2 h
    rw [tryCycleAux] at h
    cases he : events[i]? with
    | none => rw [he] at h; cases h
    | some e =>
      rw [he] at h
      have h2 : (if freqOk seg e && durOk seg e && gapOk silences numTones events j i e then
          tryCycleAux silences numTones events rest (j + 1) (i + 1) else none) = some i2 := h
      by_cases hc : freqOk seg e && durOk seg e && gapOk silences numTones events j i e
      · rw [if_pos hc] at h2
        have := ih h2
        simp only [List.length_cons]
        omega
      · rw [if_neg hc] at h2
        cases h2

/-- The while loop of the cycle counter (windowed_matcher.py lines 256
to 307), with explicit fuel: every successful cycle advances the cursor
by the number of tone segments, at least one, so fuel of one more than
the event count always suffices. -/
def countCyclesLoop (tones silences : List Segment) (events : List ToneEvent) :
    ℕ → ℕ → ℕ
  | 0, _ => 0
  | fuel + 1, i =>
    if i < events.length then
      match tryCycle tones silences events i with
      | some i2 => 1 + countCyclesLoop tones silences events fuel i2
      | none => 0
    else 0

/-- WindowedMatcher._count_pattern_cycles, from windowed_matcher.py
lines 228 to 309: zero for an empty event list or a profile without
tone segments, else the number of complete cycles matched greedily from
the start. -/
def count_pattern_cycles (p : AlarmProfile) (events : List ToneEvent) : ℕ :=
  if events.isEmpty then 0
  else
    let tones := p.segments.filter (fun s => decide (s.type = SegType.tone))
    let silences := p.segments.filter (fun s => decide (s.type = SegType.silence))
    if tones.isEmpty then 0
    else countCyclesLoop tones silences events (events.length + 1) 0

/-- Per-profile mutable state of the matcher, from windowed_matcher.py
(last_eval_times and last_match_times entries). -/
structure WMState where
  last_eval : ℚ
  last_match : ℚ
deriving DecidableEq

/-- WindowedMatcher._match_pattern_in_window, from windowed_matcher.py
lines 149 to 226, for one profile: filter the window events by the
profile tone frequency ranges, sort by timestamp, take the best cycle
count over every starting index, and emit a match when it reaches the
confirmation count unless suppressed by the last match time. -/
def profileFreqRanges (p : AlarmProfile) : List Range :=
  p.segments.filterMap (fun s => if s.type = SegType.tone then s.frequency else none)

/-- The window events inside some profile tone frequency range, from
windowed_matcher.py lines 181 to 187. -/
def relevantEvents (p : AlarmProfile) (events : List ToneEvent) : List ToneEvent :=
  events.filter
    (fun e => (profileFreqRanges p).any
      (fun r => decide (r.min ≤ e.frequency ∧ e.frequency ≤ r.max)))

/-- Stable sort of the relevant events by timestamp, from
windowed_matcher.py line 193. -/
def sortByTs (l : List ToneEvent) : List ToneEvent :=
  l.foldl (fun acc e => insertByTs e acc) []

/-- Best cycle count over every starting index, from
windowed_matcher.py lines 200 to 205. -/
def bestCycles (p : AlarmProfile) (sorted : List ToneEvent) : ℕ :=
  (List.range sorted.length).foldl
    (fun acc k => max acc (count_pattern_cycles p (sorted.drop k))) 0

def matchPatternInWindow (p : AlarmProfile) (cfg : WindowConfig) (events : List ToneEvent)
    (st : WMState) (t : ℚ) : WMState × Option PatternMatchEvent :=
  if (profileFreqRanges p).isEmpty then (st, none)
  else if (relevantEvents p events).isEmpty then (st, none)
  else if p.confirmation_cycles ≤ bestCycles p (sortByTs (relevantEvents p events)) then
    if t - st.last_match < cfg.pattern_duration then (st, none)
    else ({ st with last_match := t },
      some ⟨t, cfg.pattern_duration * ((bestCycles p (sortByTs (relevantEvents p events))) : ℚ),
        p.name, bestCycles p (sortByTs (relevantEvents p events))⟩)
  else (st, none)

/-- WindowedMatcher.evaluate, from windowed_matcher.py lines 111 to 147,
for one profile: skip while the eval interval has not elapsed, then
record the eval time, read the window from the buffer and attempt the
pattern match. -/
def evaluateProfile (p : AlarmProfile) (buffer : List ToneEvent) (st : WMState) (t : ℚ) :
    WMState × Option PatternMatchEvent :=
  if t - st.last_eval < (computeConfig p).eval_frequency then (st, none)
  else if (EventBuffer.getWindow buffer t (computeConfig p).window_duration).isEmpty then
    ({ st with last_eval := t }, none)
  else matchPatternInWindow p (computeConfig p)
    (EventBuffer.getWindow buffer t (computeConfig p).window_duration)
    { st with last_eval := t } t

/-- C6: with a non-negative duration range, the cycle counter accepts a
tone event duration exactly when it lies in the relaxed interval from
half the segment minimum to one and a half times the segment maximum;
and when the segment is not the last tone of the cycle and a next event
exists, the inter-event gap must lie between half the matching silence
minimum and twice the silence maximum. Acceptance of the event for
the segment is the conjunction of the frequency check with these two
checks (tryCycleAux). -/
theorem countCycles_tone_acceptance_iff (seg : Segment) (e : ToneEvent)
    (silences : List Segment) (numTones i j : ℕ) (events : List ToneEvent)
    (sseg : Segment) (nxt : ToneEvent)
    (hmin : 0 ≤ seg.duration.min) (hmax : 0 ≤ seg.duration.max)
    (hj : j + 1 < numTones) (hi : events[i + 1]? = some nxt) (hs : silences[j]? = some sseg) :
    (durOk seg e = true ↔
      seg.duration.min * (1/2) ≤ e.duration ∧ e.duration ≤ seg.duration.max * (3/2)) ∧
    (gapOk silences numTones events j i e = true ↔
      sseg.duration.min * (1/2) ≤ nxt.timestamp - (e.timestamp + e.duration) ∧
        nxt.timestamp - (e.timestamp + e.duration) ≤ sseg.duration.max * 2) := by
  have hlt : i + 1 < events.length := (List.getElem?_eq_some.mp hi).1
  constructor
  · unfold durOk
    rw [Bool.or_eq_true, Bool.and_eq_true]
    simp only [decide_eq_true_eq]
    constructor
    · rintro (hcont | hrel)
      · simp only [Range.contains] at hcont
        constructor
        · linarith [hcont.1]
        · linarith [hcont.2]
      · exact hrel
    · intro h
      right
      exact h
  · unfold gapOk
    rw [if_pos ⟨hj, hlt⟩]
    simp only [hs, hi, decide_eq_true_eq]

/-- C6 witness: a concrete tone segment with duration range 1 to 2, a
matching silence segment with range 1 to 1, and a pair of events. -/
theorem countCycles_tone_acceptance_iff_witness :
    ((0 : ℚ) ≤ 1) ∧ ((0 : ℚ) ≤ 2) ∧ (0 + 1 < 2) ∧
    (durOk ⟨SegType.tone, some ⟨100, 200⟩, 1/20, ⟨1, 2⟩⟩ ⟨0, 1, 150, 1, 1⟩ = true ↔
      (⟨1, 2⟩ : Range).min * (1/1) * (1/2) ≤ (⟨0, 1, 150, 1, 1⟩ : ToneEvent).duration ∧
        (⟨0, 1, 150, 1, 1⟩ : ToneEvent).duration ≤ (⟨1, 2⟩ : Range).max * (3/2)) ∧
    (gapOk [⟨SegType.silence, none, 1/20, ⟨1, 1⟩⟩] 2
        [⟨0, 1, 150, 1, 1⟩, ⟨3, 1, 150, 1, 1⟩] 0 0 ⟨0, 1, 150, 1, 1⟩ = true ↔
      (⟨1, 1⟩ : Range).min * (1/2) ≤ (⟨3, 1, 150, 1, 1⟩ : ToneEvent).timestamp -
          ((⟨0, 1, 150, 1, 1⟩ : ToneEvent).timestamp +
            (⟨0, 1, 150, 1, 1⟩ : ToneEvent).duration) ∧
        (⟨3, 1, 150, 1, 1⟩ : ToneEvent).timestamp -
          ((⟨0, 1, 150, 1, 1⟩ : ToneEvent).timestamp +
            (⟨0, 1, 150, 1, 1⟩ : ToneEvent).duration) ≤ (⟨1, 1⟩ : Range).max * 2) := by
  have h := countCycles_tone_acceptance_iff ⟨SegType.tone, some ⟨100, 200⟩, 1/20, ⟨1, 2⟩⟩
    ⟨0, 1, 150, 1, 1⟩ [⟨SegType.silence, none, 1/20, ⟨1, 1⟩⟩] 2 0 0
    [⟨0, 1, 150, 1, 1⟩, ⟨3, 1, 150, 1, 1⟩] ⟨SegType.silence, none, 1/20, ⟨1, 1⟩⟩
    ⟨3, 1, 150, 1, 1⟩ (by norm_num) (by norm_num) (by norm_num) rfl rfl
  refine ⟨by norm_num, by norm_num, by norm_num, ?_, h.2⟩
  have heq : ((⟨1, 2⟩ : Range).min * (1/1) * (1/2) : ℚ) = (⟨1, 2⟩ : Range).min * (1/2) := by
    norm_num
  rw [heq]
  exact h.1

/-- A uniform time shift of one event: only the timestamp moves. -/
def shiftEvent (δ : ℚ) (e : ToneEvent) : ToneEvent :=
  { e with timestamp := e.timestamp + δ }

/-- A uniform time shift of a list of events. -/
def shiftEvents (δ : ℚ) (l : List ToneEvent) : List ToneEvent := l.map (shiftEvent δ)

theorem getElem?_append_lt {α : Type} {l1 l2 : List α} {n : ℕ} (h : n < l1.length) :
    (l1 ++ l2)[n]? = l1[n]? := by
  rw [List.getElem?_append, if_pos h]

theorem getElem?_append_ge {α : Type} {l1 l2 : List α} {n : ℕ} (h : l1.length ≤ n) :
    (l1 ++ l2)[n]? = l2[n - l1.length]? := by
  rw [List.getElem?_append, if_neg (by omega)]

theorem tryCycleAux_cons_some {silences : List Segment} {numTones : ℕ}
    {events : List ToneEvent} {seg : Segment} {rest : List Segment} {j i : ℕ} {e : ToneEvent}
    (he : events[i]? = some e) :
    tryCycleAux silences numTones events (seg :: rest) j i =
      if freqOk seg e && durOk seg e && gapOk silences numTones events j i e then
        tryCycleAux silences numTones events rest (j + 1) (i + 1)
      else none := by
  rw [tryCycleAux, he]

theorem tryCycleAux_cons_none {silences : List Segment} {numTones : ℕ}
    {events : List ToneEvent} {seg : Segment} {rest : List Segment} {j i : ℕ}
    (he : events[i]? = none) :
    tryCycleAux silences numTones events (seg :: rest) j i = none := by
  rw [tryCycleAux, he]

theorem gapOk_congr {s : List Segment} {n : ℕ} {E2 E : List ToneEvent} {j i : ℕ}
    {e : ToneEvent} (hlen : E2.length = E.length) (hget : E2[i + 1]? = E[i + 1]?) :
    gapOk s n E2 j i e = gapOk s n E j i e := by
  unfold gapOk
  rw [hlen, hget]

theorem gapOk_shift {δ : ℚ} {s : List Segment} {n : ℕ} {E2 E : List ToneEvent} {j i : ℕ}
    {e : ToneEvent} (hlen : E2.length = E.length)
    (hget : E2[i + 1]? = (E[i + 1]?).map (shiftEvent δ)) :
    gapOk s n E2 j i (shiftEvent δ e) = gapOk s n E j i e := by
  unfold gapOk
  rw [hlen]
  by_cases hc : j + 1 < n ∧ i + 1 < E.length
  · rw [if_pos hc, if_pos hc]
    cases hs : s[j]? with
    | none => rfl
    | some sseg =>
      cases hE : E[i + 1]? with
      | none =>
        rw [hE] at hget
        rw [hget]
        rfl
      | some nxt =>
        rw [hE] at hget
        rw [hget]
        have h1 : (shiftEvent δ nxt).timestamp -
            ((shiftEvent δ e).timestamp + (shiftEvent δ e).duration) =
            nxt.timestamp - (e.timestamp + e.duration) := by
          simp only [shiftEvent]
          ring
        have hiff : (sseg.duration.min * (1/2) ≤ (shiftEvent δ nxt).timestamp -
              ((shiftEvent δ e).timestamp + (shiftEvent δ e).duration) ∧
            (shiftEvent δ nxt).timestamp -
              ((shiftEvent δ e).timestamp + (shiftEvent δ e).duration) ≤
              sseg.duration.max * 2) ↔
            (sseg.duration.min * (1/2) ≤ nxt.timestamp - (e.timestamp + e.duration) ∧
              nxt.timestamp - (e.timestamp + e.duration) ≤ sseg.duration.max * 2) := by
          rw [h1]
        exact decide_eq_decide.mpr hiff
  · rw [if_neg hc, if_neg hc]

theorem tryCycleAux_shift (δ : ℚ) (evs1 evs2 : List ToneEvent) (silences : List Segment)
    (numTones : ℕ) :
    ∀ (segs : List Segment) (j i : ℕ), j + segs.length = numTones →
      (i + segs.length ≤ evs1.length ∨ evs1.length ≤ i) →
      tryCycleAux silences numTones (evs1 ++ shiftEvents δ evs2) segs j i =
        tryCycleAux silences numTones (evs1 ++ evs2) segs j i := by
  have hlen : (evs1 ++ shiftEvents δ evs2).length = (evs1 ++ evs2).length := by
    simp [shiftEvents]
  intro segs
  induction segs with
  | nil => intro j i _ _; rfl
  | cons seg rest ih =>
    intro j i hj hpos
    rcases hpos with hA | hB
    · have hA2 : i + (rest.length + 1) ≤ evs1.length := by
        simpa using hA
      have hiB : i < evs1.length := by omega
      have hel : (evs1 ++ shiftEvents δ evs2)[i]? = evs1[i]? := getElem?_append_lt hiB
      have her : (evs1 ++ evs2)[i]? = evs1[i]? := getElem?_append_lt hiB
      cases he : evs1[i]? with
      | none =>
        rw [tryCycleAux_cons_none (hel.trans he), tryCycleAux_cons_none (her.trans he)]
      | some e =>
        rw [tryCycleAux_cons_some (hel.trans he), tryCycleAux_cons_some (her.trans he)]
        have hgap : gapOk silences numTones (evs1 ++ shiftEvents δ evs2) j i e =
            gapOk silences numTones (evs1 ++ evs2) j i e := by
          cases rest with
          | nil =>
            have hj1 : ¬ (j + 1 < numTones) := by
              simp only [List.length_cons, List.length_nil] at hj
              omega
            unfold gapOk
            rw [if_neg (fun hcon => absurd hcon.1 hj1),
              if_neg (fun hcon => absurd hcon.1 hj1)]
          | cons s2 r2 =>
            have hi1 : i + 1 < evs1.length := by
              simp only [List.length_cons] at hA2
              omega
            exact gapOk_congr hlen ((getElem?_append_lt hi1).trans
              (getElem?_append_lt hi1).symm)
        rw [hgap]
        by_cases hcnd : freqOk seg e && durOk seg e &&
            gapOk silences numTones (evs1 ++ evs2) j i e
        · rw [if_pos hcnd, if_pos hcnd]
          refine ih (j + 1) (i + 1) ?_ (Or.inl ?_)
          · simp only [List.length_cons] at hj
            omega
          · omega
        · rw [if_neg hcnd, if_neg hcnd]
    · have hel : (evs1 ++ shiftEvents δ evs2)[i]? = (shiftEvents δ evs2)[i - evs1.length]? :=
        getElem?_append_ge hB
      have her : (evs1 ++ evs2)[i]? = evs2[i - evs1.length]? := getElem?_append_ge hB
      have hmap : (shiftEvents δ evs2)[i - evs1.length]? =
          (evs2[i - evs1.length]?).map (shiftEvent δ) :=
        List.getElem?_map (shiftEvent δ) evs2 (i - evs1.length)
      cases he : evs2[i - evs1.length]? with
      | none =>
        rw [tryCycleAux_cons_none (by rw [hel, hmap, he]; rfl),
          tryCycleAux_cons_none (her.trans he)]
      | some e =>
        rw [tryCycleAux_cons_some (e := shiftEvent δ e) (by rw [hel, hmap, he]; rfl),
          tryCycleAux_cons_some (her.trans he)]
        have hfreq : freqOk seg (shiftEvent δ e) = freqOk seg e := rfl
        have hdur : durOk seg (shiftEvent δ e) = durOk seg e := rfl
        have hgap : gapOk silences numTones (evs1 ++ shiftEvents δ evs2) j i (shiftEvent δ e) =
            gapOk silences numTones (evs1 ++ evs2) j i e := by
          refine gapOk_shift hlen ?_
          have hB1 : evs1.length ≤ i + 1 := by omega
          rw [getElem?_append_ge hB1, getElem?_append_ge hB1]
          exact List.getElem?_map (shiftEvent δ) evs2 (i + 1 - evs1.length)
        rw [hfreq, hdur, hgap]
        by_cases hcnd : freqOk seg e && durOk seg e &&
            gapOk silences numTones (evs1 ++ evs2) j i e
        · rw [if_pos hcnd, if_pos hcnd]
          exact ih (j + 1) (i + 1) (by simp only [List.length_cons] at hj; omega)
            (Or.inr (by omega))
        · rw [if_neg hcnd, if_neg hcnd]

theorem countCyclesLoop_shift (δ : ℚ) (evs1 evs2 : List ToneEvent)
    (tones silences : List Segment) (m : ℕ) (hb : evs1.length = m * tones.length) :
    ∀ (fuel i : ℕ), (∃ k, i = k * tones.length) →
      countCyclesLoop tones silences (evs1 ++ shiftEvents δ evs2) fuel i =
        countCyclesLoop tones silences (evs1 ++ evs2) fuel i := by
  have hlen : (evs1 ++ shiftEvents δ evs2).length = (evs1 ++ evs2).length := by
    simp [shiftEvents]
  intro fuel
  induction fuel with
  | zero => intro i _; rfl
  | succ fl ih =>
    intro i hk
    obtain ⟨k, rfl⟩ := hk
    rw [countCyclesLoop, countCyclesLoop, hlen]
    by_cases hi : k * tones.length < (evs1 ++ evs2).length
    · rw [if_pos hi, if_pos hi]
      have hcong : tryCycle tones silences (evs1 ++ shiftEvents δ evs2) (k * tones.length) =
          tryCycle tones silences (evs1 ++ evs2) (k * tones.length) := by
        unfold tryCycle
        refine tryCycleAux_shift δ evs1 evs2 silences tones.length tones 0 (k * tones.length)
          (by omega) ?_
        rw [hb]
        rcases le_or_lt (k + 1) m with hle | hlt
        · left
          have hmul : (k + 1) * tones.length ≤ m * tones.length :=
            Nat.mul_le_mul_right _ hle
          calc k * tones.length + tones.length = (k + 1) * tones.length := by ring
            _ ≤ m * tones.length := hmul
        · right
          exact Nat.mul_le_mul_right _ (by omega)
      rw [hcong]
      cases hc : tryCycle tones silences (evs1 ++ evs2) (k * tones.length) with
      | none => rfl
      | some i2 =>
        have hi2 : i2 = k * tones.length + tones.length := tryCycleAux_some hc
        have hrec := ih i2 ⟨k + 1, by rw [hi2]; ring⟩
        simp only [hrec]
    · rw [if_neg hi, if_neg hi]

/-- C10: the cycle counter imposes no constraint between cycles: with
the prefix length a multiple of the tone-segment count (a cycle
boundary of the greedy matcher), uniformly shifting all later events
by any positive offset leaves count_pattern_cycles unchanged. -/
theorem count_pattern_cycles_shift_invariance (p : AlarmProfile)
    (evs1 evs2 : List ToneEvent) (δ : ℚ) (m : ℕ)
    (hb : evs1.length =
      m * (p.segments.filter (fun s => decide (s.type = SegType.tone))).length)
    (hδ : 0 < δ) :
    count_pattern_cycles p (evs1 ++ shiftEvents δ evs2) =
      count_pattern_cycles p (evs1 ++ evs2) := by
  have hlen : (evs1 ++ shiftEvents δ evs2).length = (evs1 ++ evs2).length := by
    simp [shiftEvents]
  have hemp : (evs1 ++ shiftEvents δ evs2).isEmpty = (evs1 ++ evs2).isEmpty := by
    cases evs1 <;> cases evs2 <;> simp [shiftEvents]
  unfold count_pattern_cycles
  rw [hemp, hlen]
  by_cases he : (evs1 ++ evs2).isEmpty
  · rw [if_pos he, if_pos he]
  · rw [if_neg he, if_neg he]
    by_cases ht : (p.segments.filter (fun s => decide (s.type = SegType.tone))).isEmpty
    · rw [if_pos ht, if_pos ht]
    · rw [if_neg ht, if_neg ht]
      exact countCyclesLoop_shift δ evs1 evs2 _ _ m hb ((evs1 ++ evs2).length + 1) 0 ⟨0, by ring⟩

/-- C10 witness: a one-tone-segment profile, a one-cycle prefix and a
shifted suffix. -/
theorem count_pattern_cycles_shift_invariance_witness :
    ((5 : ℚ) > 0) ∧
    ([(⟨0, 1, 150, 1, 1⟩ : ToneEvent)].length = 1 *
      ((coarseProfile.segments.filter (fun s => decide (s.type = SegType.tone))).length)) ∧
    count_pattern_cycles coarseProfile
        ([⟨0, 1, 150, 1, 1⟩] ++ shiftEvents 5 [⟨2, 1, 150, 1, 1⟩]) =
      count_pattern_cycles coarseProfile ([⟨0, 1, 150, 1, 1⟩] ++ [⟨2, 1, 150, 1, 1⟩]) :=
  ⟨by norm_num, by simp [coarseProfile],
    count_pattern_cycles_shift_invariance coarseProfile [⟨0, 1, 150, 1, 1⟩]
      [⟨2, 1, 150, 1, 1⟩] 5 1 (by simp [coarseProfile]) (by norm_num)⟩

theorem matchPatternInWindow_spec (p : AlarmProfile) (cfg : WindowConfig)
    (events : List ToneEvent) (st : WMState) (t : ℚ) :
    (matchPatternInWindow p cfg events st t).2 = none ∨
    ((matchPatternInWindow p cfg events st t).1.last_match = t ∧
      ¬ (t - st.last_match < cfg.pattern_duration)) := by
  unfold matchPatternInWindow
  split
  · exact Or.inl rfl
  · split
    · exact Or.inl rfl
    · split
      · split
        · exact Or.inl rfl
        · rename_i hsup
          exact Or.inr ⟨rfl, hsup⟩
      · exact Or.inl rfl

theorem evaluateProfile_spec (p : AlarmProfile) (buffer : List ToneEvent)
    (st : WMState) (t : ℚ) :
    (evaluateProfile p buffer st t).2 = none ∨
    ((evaluateProfile p buffer st t).1.last_match = t ∧
      ¬ (t - st.last_match < (computeConfig p).pattern_duration)) := by
  unfold evaluateProfile
  split
  · exact Or.inl rfl
  · split
    · exact Or.inl rfl
    · rcases matchPatternInWindow_spec p (computeConfig p)
        (EventBuffer.getWindow buffer t (computeConfig p).window_duration)
        { st with last_eval := t } t with h | ⟨h1, h2⟩
      · exact Or.inl h
      · exact Or.inr ⟨h1, h2⟩

/-- C5 amended: two successive evaluate calls for one profile at times
t1 and t2 with the same buffer contents and t2 - t1 below the profile
pattern duration produce at most one new PatternMatchEvent: a second
match is suppressed by last_match_time. -/
theorem windowedMatcher_match_idempotence (p : AlarmProfile) (buffer : List ToneEvent)
    (st : WMState) (t1 t2 : ℚ)
    (ht : t2 - t1 < (computeConfig p).pattern_duration) :
    ((evaluateProfile p buffer st t1).2.toList ++
      (evaluateProfile p buffer (evaluateProfile p buffer st t1).1 t2).2.toList).length ≤ 1 := by
  cases hm1 : (evaluateProfile p buffer st t1).2 with
  | none =>
    cases hm2 : (evaluateProfile p buffer (evaluateProfile p buffer st t1).1 t2).2 <;>
      simp [hm1, hm2]
  | some e1 =>
    rcases evaluateProfile_spec p buffer st t1 with h | ⟨hlm, _⟩
    · rw [hm1] at h
      cases h
    · rcases evaluateProfile_spec p buffer (evaluateProfile p buffer st t1).1 t2 with h2 |
        ⟨_, hnsup⟩
      · rw [h2]
        simp
      · rw [hlm] at hnsup
        exact absurd ht hnsup

/-- A single-tone-segment profile used to exercise the matcher: one
tone at 100 to 200 Hz lasting 1 to 3 s, confirmation after one cycle.
Its pattern duration is 2 s, its window 3 s, its eval interval 0.5 s. -/
def idemProfile : AlarmProfile :=
  { name := "idem"
    segments := [⟨SegType.tone, some ⟨100, 200⟩, 1/20, ⟨1, 3⟩⟩] }

theorem idemProfile_config : computeConfig idemProfile = ⟨3, 1/2, 2⟩ := by
  unfold computeConfig idemProfile
  norm_num [min_def]

theorem idemProfile_freqRanges : profileFreqRanges idemProfile = [⟨100, 200⟩] := by
  norm_num [profileFreqRanges, idemProfile, List.filterMap_cons]

theorem idemProfile_relevant :
    relevantEvents idemProfile [⟨19/2, 2, 150, 1, 1⟩] = [⟨19/2, 2, 150, 1, 1⟩] := by
  norm_num [relevantEvents, idemProfile_freqRanges, List.filter, List.any]

theorem idemProfile_count :
    count_pattern_cycles idemProfile [⟨19/2, 2, 150, 1, 1⟩] = 1 := by
  norm_num [count_pattern_cycles, idemProfile, List.filter, countCyclesLoop, tryCycle,
    tryCycleAux, freqOk, durOk, gapOk, Range.contains]

theorem idemProfile_best :
    bestCycles idemProfile (sortByTs [⟨19/2, 2, 150, 1, 1⟩]) = 1 := by
  rw [show sortByTs [(⟨19/2, 2, 150, 1, 1⟩ : ToneEvent)] = [⟨19/2, 2, 150, 1, 1⟩] from rfl]
  norm_num [bestCycles, List.range_succ, idemProfile_count]

theorem idemProfile_eval1 :
    evaluateProfile idemProfile [⟨19/2, 2, 150, 1, 1⟩] ⟨0, -999⟩ 10 =
      (⟨10, 10⟩, some ⟨10, 2, "idem", 1⟩) := by
  have hwin : EventBuffer.getWindow [(⟨19/2, 2, 150, 1, 1⟩ : ToneEvent)] 10
      (computeConfig idemProfile).window_duration = [⟨19/2, 2, 150, 1, 1⟩] := by
    rw [idemProfile_config]
    norm_num [EventBuffer.getWindow, List.filter]
  unfold evaluateProfile
  rw [if_neg (by rw [idemProfile_config]; norm_num), hwin]
  rw [if_neg (by norm_num)]
  unfold matchPatternInWindow
  rw [if_neg (by rw [idemProfile_freqRanges]; norm_num), idemProfile_relevant]
  rw [if_neg (by norm_num)]
  rw [if_pos (by rw [idemProfile_best]; norm_num [idemProfile])]
  rw [if_neg (by rw [idemProfile_config]; norm_num)]
  rw [idemProfile_best, idemProfile_config]
  norm_num [idemProfile]

theorem idemProfile_eval2 :
    evaluateProfile idemProfile [⟨19/2, 2, 150, 1, 1⟩] ⟨10, 10⟩ 12 =
      (⟨12, 12⟩, some ⟨12, 2, "idem", 1⟩) := by
  have hwin : EventBuffer.getWindow [(⟨19/2, 2, 150, 1, 1⟩ : ToneEvent)] 12
      (computeConfig idemProfile).window_duration = [⟨19/2, 2, 150, 1, 1⟩] := by
    rw [idemProfile_config]
    norm_num [EventBuffer.getWindow, List.filter]
  unfold evaluateProfile
  rw [if_neg (by rw [idemProfile_config]; norm_num), hwin]
  rw [if_neg (by norm_num)]
  unfold matchPatternInWindow
  rw [if_neg (by rw [idemProfile_freqRanges]; norm_num), idemProfile_relevant]
  rw [if_neg (by norm_num)]
  rw [if_pos (by rw [idemProfile_best]; norm_num [idemProfile])]
  rw [if_neg (by rw [idemProfile_config]; norm_num)]
  rw [idemProfile_best, idemProfile_config]
  norm_num [idemProfile]

/-- C5 counterexample: two successive evaluate calls at times 10 and 12
with the same buffer both produce a match for the profile, because the
elapsed time equals the pattern duration and the last_match_time check
only suppresses matches strictly younger than pattern_duration. -/
theorem windowedMatcher_match_idempotence_counterexample :
    ((evaluateProfile idemProfile [⟨19/2, 2, 150, 1, 1⟩] ⟨0, -999⟩ 10).2.toList ++
      (evaluateProfile idemProfile [⟨19/2, 2, 150, 1, 1⟩]
        (evaluateProfile idemProfile [⟨19/2, 2, 150, 1, 1⟩] ⟨0, -999⟩ 10).1 12).2.toList).length
      = 2 := by
  rw [idemProfile_eval1]
  rw [show ((⟨10, 10⟩, some (⟨10, 2, "idem", 1⟩ : PatternMatchEvent)) :
    WMState × Option PatternMatchEvent).1 = ⟨10, 10⟩ from rfl]
  rw [idemProfile_eval2]
  rfl

/-- C5 amended witness: the idempotence theorem at the concrete profile
and buffer, with the two calls 1 s apart, closer than the 2 s pattern
duration. -/
theorem windowedMatcher_match_idempotence_witness :
    ((11 : ℚ) - 10 < (computeConfig idemProfile).pattern_duration) ∧
    ((evaluateProfile idemProfile [⟨19/2, 2, 150, 1, 1⟩] ⟨0, -999⟩ 10).2.toList ++
      (evaluateProfile idemProfile [⟨19/2, 2, 150, 1, 1⟩]
        (evaluateProfile idemProfile [⟨19/2, 2, 150, 1, 1⟩] ⟨0, -999⟩ 10).1 11).2.toList).length
      ≤ 1 :=
  ⟨by rw [idemProfile_config]; norm_num,
    windowedMatcher_match_idempotence idemProfile [⟨19/2, 2, 150, 1, 1⟩] ⟨0, -999⟩ 10 11
      (by rw [idemProfile_config]; norm_num)⟩

theorem insertAsc_zero (n : ℕ) :
    insertAsc 0 (List.replicate n (0 : ℚ)) = List.replicate (n + 1) 0 := by
  induction n with
  | zero => rfl
  | succ m ih =>
    rw [List.replicate_succ, insertAsc, if_neg (lt_irrefl 0), ih]
    rfl

theorem sortAsc_zero_aux (n : ℕ) :
    ∀ (j : ℕ), (List.replicate n (0 : ℚ)).foldl (fun acc x => insertAsc x acc)
      (List.replicate j 0) = List.replicate (j + n) 0 := by
  induction n with
  | zero => intro j; simp
  | succ m ih =>
    intro j
    rw [List.replicate_succ, List.foldl_cons, insertAsc_zero, ih (j + 1)]
    congr 1
    omega

theorem sortAsc_zero (k : ℕ) : sortAsc (List.replicate k (0 : ℚ)) = List.replicate k 0 := by
  have h := sortAsc_zero_aux k 0
  simpa [sortAsc] using h

theorem getD_replicate_zero (k : ℕ) :
    ∀ (i : ℕ), (List.replicate k (0 : ℚ)).getD i 0 = 0 := by
  induction k with
  | zero => intro i; cases i <;> rfl
  | succ m ih =>
    intro i
    cases i with
    | zero => rfl
    | succ i2 =>
      rw [List.replicate_succ]
      exact ih i2

theorem medianQ_replicate_zero (k : ℕ) : medianQ (List.replicate k (0 : ℚ)) = 0 := by
  unfold medianQ
  rw [sortAsc_zero]
  by_cases h : (List.replicate k (0 : ℚ)).length % 2 = 1
  · rw [if_pos h, getD_replicate_zero]
  · rw [if_neg h, getD_replicate_zero, getD_replicate_zero]
    norm_num

theorem maxQ_replicate_zero (k : ℕ) : maxQ (List.replicate k (0 : ℚ)) = 0 := by
  cases k with
  | zero => rfl
  | succ m =>
    rw [List.replicate_succ, maxQ]
    induction m with
    | zero => rfl
    | succ j ih =>
      rw [List.replicate_succ, List.foldl_cons, max_self]
      exact ih

/-- A chunk whose spectrum is all zeros, a genuinely silent chunk,
yields no peaks when the absolute magnitude floor is positive. -/
theorem spectralMonitor_process_zero (m : SpectralMonitor) (spectrum : List ℤ → List ℚ)
    (chunk0 : List ℤ) (k : ℕ) (h0 : spectrum chunk0 = List.replicate k 0)
    (hmm : 0 < m.min_magnitude) :
    m.process spectrum chunk0 = [] := by
  by_cases hlen : chunk0.length ≠ m.chunk_size
  · unfold SpectralMonitor.process
    rw [if_pos hlen]
  · have hlen2 : chunk0.length = m.chunk_size := not_ne_iff.mp hlen
    rw [spectralMonitor_process_eq m spectrum chunk0 hlen2, h0]
    cases k with
    | zero => rw [if_pos (by simp)]
    | succ j =>
      rw [if_neg (by simp)]
      rw [if_pos]
      rw [maxQ_replicate_zero, medianQ_replicate_zero]
      simp only [zero_mul]
      exact lt_max_of_lt_left hmm

/-- Modelled from the spec: filter.py is not among the sources; spec
section 4.2 defines the frequency filter as the union of all tone
frequency ranges of the loaded profiles. -/
def FrequencyFilter.ranges (profiles : List AlarmProfile) : List Range :=
  (profiles.map profileFreqRanges).flatten

/-- Modelled from the spec: filter.py is not among the sources; spec
section 4.2: filter_peaks retains exactly the peaks whose frequency
lies in at least one range. -/
def FrequencyFilter.filter_peaks (profiles : List AlarmProfile) (peaks : List Peak) :
    List Peak :=
  peaks.filter (fun pk => (FrequencyFilter.ranges profiles).any
    (fun r => decide (r.min ≤ pk.frequency ∧ pk.frequency ≤ r.max)))

/-- WindowedMatcher.evaluate, from windowed_matcher.py lines 111 to
147: iterate the profiles with their per-profile states, collecting the
matches; the per-profile body is evaluateProfile. -/
def WindowedMatcher.evaluate (profiles : List AlarmProfile) (buffer : List ToneEvent)
    (states : List WMState) (t : ℚ) : List WMState × List PatternMatchEvent :=
  (profiles.zip states).foldl
    (fun acc pr =>
      (acc.1 ++ [(evaluateProfile pr.1 buffer pr.2 t).1],
        acc.2 ++ ((evaluateProfile pr.1 buffer pr.2 t).2).toList))
    ([], [])

/-- Engine state, from engine.py: the current time, the generator
state, the matcher event buffer and per-profile states, and the alarm
flag. The background auto-clear timer and the user callbacks of
_trigger_alarm are external side effects and are not modelled. -/
structure EngineState where
  current_time : ℚ
  gen : EGState
  buffer : List ToneEvent
  wstates : List WMState
  alarm_active : Bool

/-- The pipeline of Engine.process_chunk after the DSP stage, from
engine.py lines 104 to 121: frequency filter, event generation at the
advanced time, buffering of events, windowed evaluation, and the alarm
flag update of _trigger_alarm. -/
def Engine.pipelineStep (profiles : List AlarmProfile) (gcfg : EGen) (st : EngineState)
    (t2 : ℚ) (peaks : List Peak) : EngineState × Bool :=
  (⟨t2,
    (EventGenerator.process gcfg st.gen (FrequencyFilter.filter_peaks profiles peaks) t2).1,
    (EventGenerator.process gcfg st.gen (FrequencyFilter.filter_peaks profiles peaks) t2).2.foldl
      (fun b e => EventBuffer.add 60 b e) st.buffer,
    (WindowedMatcher.evaluate profiles
      ((EventGenerator.process gcfg st.gen
        (FrequencyFilter.filter_peaks profiles peaks) t2).2.foldl
        (fun b e => EventBuffer.add 60 b e) st.buffer) st.wstates t2).1,
    st.alarm_active || !(WindowedMatcher.evaluate profiles
      ((EventGenerator.process gcfg st.gen
        (FrequencyFilter.filter_peaks profiles peaks) t2).2.foldl
        (fun b e => EventBuffer.add 60 b e) st.buffer) st.wstates t2).2.isEmpty⟩,
    !(WindowedMatcher.evaluate profiles
      ((EventGenerator.process gcfg st.gen
        (FrequencyFilter.filter_peaks profiles peaks) t2).2.foldl
        (fun b e => EventBuffer.add 60 b e) st.buffer) st.wstates t2).2.isEmpty)

/-- Engine.process_chunk, from engine.py lines 86 to 121: advance
current_time by chunk_size / sample_rate unconditionally, run the DSP
on the chunk, then the rest of the pipeline. The generator resolution
comes from compute_finest_resolution and the monitor uses the default
magnitude floor of 0.05. -/
def Engine.processChunk (profiles : List AlarmProfile) (sample_rate : ℚ) (chunk_size : ℕ)
    (spectrum : List ℤ → List ℚ) (st : EngineState) (chunk : List ℤ) : EngineState × Bool :=
  Engine.pipelineStep profiles
    (EventGenerator.init sample_rate (chunk_size : ℚ)
      (compute_finest_resolution profiles).1 (compute_finest_resolution profiles).2)
    st (st.current_time + (chunk_size : ℚ) / sample_rate)
    ((SpectralMonitor.init sample_rate chunk_size (1/20)).process spectrum chunk)

/-- C8: a chunk whose length differs from the configured chunk_size
yields the empty peak list from the spectral monitor, and
Engine.process_chunk still advances current_time by
chunk_size / sample_rate and leaves the engine in exactly the state a
silent chunk (one whose spectrum is all zeros) would produce. -/
theorem engine_invalid_chunk (profiles : List AlarmProfile) (sample_rate : ℚ)
    (chunk_size : ℕ) (spectrum : List ℤ → List ℚ) (st : EngineState)
    (chunk chunk0 : List ℤ) (k : ℕ)
    (hbad : chunk.length ≠ chunk_size)
    (hsil : spectrum chunk0 = List.replicate k 0) :
    (SpectralMonitor.init sample_rate chunk_size (1/20)).process spectrum chunk = [] ∧
    (Engine.processChunk profiles sample_rate chunk_size spectrum st chunk).1.current_time =
      st.current_time + (chunk_size : ℚ) / sample_rate ∧
    Engine.processChunk profiles sample_rate chunk_size spectrum st chunk =
      Engine.processChunk profiles sample_rate chunk_size spectrum st chunk0 := by
  have hb : (SpectralMonitor.init sample_rate chunk_size (1/20)).process spectrum chunk = [] := by
    unfold SpectralMonitor.process
    rw [if_pos]
    exact hbad
  have h0 : (SpectralMonitor.init sample_rate chunk_size (1/20)).process spectrum chunk0 = [] :=
    spectralMonitor_process_zero _ spectrum chunk0 k hsil (by norm_num [SpectralMonitor.init])
  refine ⟨hb, rfl, ?_⟩
  unfold Engine.processChunk
  rw [hb, h0]

/-- C8 witness: a two-sample chunk against chunk_size 4, and an
all-zero four-sample chunk as the silent reference. -/
theorem engine_invalid_chunk_witness :
    (([0, 0] : List ℤ).length ≠ 4) ∧
    ((fun _ : List ℤ => List.replicate 3 (0 : ℚ)) [0, 0, 0, 0] = List.replicate 3 0) ∧
    (SpectralMonitor.init 1 4 (1/20)).process (fun _ => List.replicate 3 0) [0, 0] = [] ∧
    (Engine.processChunk [idemProfile] 1 4 (fun _ => List.replicate 3 0)
      ⟨0, EGState.initial, [], [⟨0, -999⟩], false⟩ [0, 0]).1.current_time =
      (⟨0, EGState.initial, [], [⟨0, -999⟩], false⟩ : EngineState).current_time + (4 : ℚ) / 1 ∧
    Engine.processChunk [idemProfile] 1 4 (fun _ => List.replicate 3 0)
      ⟨0, EGState.initial, [], [⟨0, -999⟩], false⟩ [0, 0] =
      Engine.processChunk [idemProfile] 1 4 (fun _ => List.replicate 3 0)
        ⟨0, EGState.initial, [], [⟨0, -999⟩], false⟩ [0, 0, 0, 0] := by
  have h := engine_invalid_chunk [idemProfile] 1 4 (fun _ => List.replicate 3 0)
    ⟨0, EGState.initial, [], [⟨0, -999⟩], false⟩ [0, 0] [0, 0, 0, 0] 3
    (by norm_num) rfl
  exact ⟨by norm_num, rfl, h.1, h.2.1, h.2.2⟩
